import Mathlib

/-!
SightCite growth animation (`script.js`)

A shallow embedding of the growth/branching simulation of `script.js`.

* JavaScript numbers are idealised as real numbers (`Math.sqrt`, `Math.hypot`,
  `Math.cos`, `Math.sin` are the real functions), so the numeric definitions are
  noncomputable.
* `Math.random()` is a stream of reals, threaded through every operation that
  draws from it.
* `Particle` and `Line` objects are mutable and shared by reference: they live
  in two object stores indexed by reference (`pobj`, `lobj`), and the global
  arrays `particles`, `lines` and the set `expandedCenters` hold references.
* Drawing (`draw`, `ctx.clearRect`) only touches the canvas and is not modelled.
* `Step` and `Reachable` describe the states reachable by calls of the script's functions;
  `Runs` describes the states the running script passes through (start, animation frames,
  `addParticles()` callbacks, reset timeouts, resizes).
-/

namespace SightCite

noncomputable section

/-- The successive results of `Math.random()`, first draw at index 0. -/
abbrev Rand := ℕ → ℝ

/-- The stream that remains after `k` draws were consumed. -/
def Rand.drop (r : Rand) (k : ℕ) : Rand := fun i => r (i + k)

/-- Every draw of `Math.random()` lies in `[0, 1)`. -/
def Rand.Valid (r : Rand) : Prop := ∀ i, 0 ≤ r i ∧ r i < 1

/-- `const maxParticles = 2000`. -/
def maxParticles : ℕ := 2000

/-- `const slowGrowthSpeed = 0.01`. -/
def slowGrowthSpeed : ℝ := 0.01

/-- `const normalGrowthSpeed = 0.3`. -/
def normalGrowthSpeed : ℝ := 0.3

/-- `Math.hypot(a, b)`. -/
def hypot (a b : ℝ) : ℝ := Real.sqrt (a * a + b * b)

/-- A `Particle` object. `color` is the green channel of the `rgba(255, g, 0, 1)` string. -/
structure Particle where
  x : ℝ
  y : ℝ
  radius : ℝ
  color : ℤ
  growthSpeed : ℝ
  active : Bool

/-- A `Line` object; `start` and `endP` (`end` in the source) are particle references. -/
structure Line where
  start : ℕ
  endP : ℕ
  currentX : ℝ
  currentY : ℝ
  growthSpeed : ℝ
  complete : Bool

/-- The global variables of the script together with the two object stores and the
pending timeouts of the host.

`refreshTimeout = none` is `undefined`/`null`; `some k` is the handle returned by
`setTimeout` (handles of the host are positive, hence never falsy). `timers` lists the
pending `setTimeout(resetSimulation, delay)` calls as `(handle, delay)`. -/
structure State where
  width : ℝ
  height : ℝ
  pobj : ℕ → Particle
  pnext : ℕ
  lobj : ℕ → Line
  lnext : ℕ
  particles : List ℕ
  lines : List ℕ
  expandedCenters : List ℕ
  refreshTimeout : Option ℕ
  timers : List (ℕ × ℕ)
  tnext : ℕ

/-- `new Particle(x, y, growthSpeed)`: two draws, for the radius and the colour. -/
def Particle.new (x y growthSpeed : ℝ) (r : Rand) : Particle :=
  { x := x
    y := y
    radius := 1 + r 0 * 5
    color := 185 + ⌊r 1 * 700⌋
    growthSpeed := growthSpeed
    active := true }

/-- Store a freshly constructed particle object under the next free reference. -/
def State.allocParticle (s : State) (p : Particle) : State :=
  { s with pobj := Function.update s.pobj s.pnext p, pnext := s.pnext + 1 }

/-- `new Line(start, end)`. -/
def Line.new (s : State) (start endP : ℕ) : Line :=
  { start := start
    endP := endP
    currentX := (s.pobj start).x
    currentY := (s.pobj start).y
    growthSpeed := (s.pobj start).growthSpeed
    complete := false }

/-- Store a freshly constructed line object under the next free reference. -/
def State.allocLine (s : State) (l : Line) : State :=
  { s with lobj := Function.update s.lobj s.lnext l, lnext := s.lnext + 1 }

/-- `checkRefresh()`. -/
def checkRefresh (s : State) : State :=
  match s.refreshTimeout with
  | none =>
    { s with
      refreshTimeout := some s.tnext
      timers := s.timers ++ [(s.tnext, 45000)]
      tnext := s.tnext + 1 }
  | some _ => s

/-- `Line.grow()` called on the line object with reference `lid`. -/
def Line.grow (s : State) (lid : ℕ) : State :=
  let l := s.lobj lid
  if l.complete = false then
    let e := s.pobj l.endP
    let dx := e.x - l.currentX
    let dy := e.y - l.currentY
    let step := l.growthSpeed
    let distance := Real.sqrt (dx * dx + dy * dy)
    if distance < step then
      checkRefresh
        { s with
          lobj := Function.update s.lobj lid
            { l with currentX := e.x, currentY := e.y, complete := true }
          pobj := Function.update s.pobj l.endP { e with active := true }
          particles := s.particles ++ [l.endP] }
    else
      { s with
        lobj := Function.update s.lobj lid
          { l with
            currentX := l.currentX + dx / distance * step
            currentY := l.currentY + dy / distance * step } }
  else s

/-- `n` successive `grow()` calls on the same line. -/
def growN (lid : ℕ) : ℕ → State → State
  | 0, s => s
  | n + 1, s => growN lid n (Line.grow s lid)

/-- One iteration of the loop body of `expandFromParticle`: four draws. -/
def expandStep (particle : ℕ) (s : State) (r : Rand) : State :=
  let angle := r 0 * Real.pi * 2
  let distance := 20 + r 1 * 300
  let newEnd := Particle.new
    ((s.pobj particle).x + Real.cos angle * distance)
    ((s.pobj particle).y + Real.sin angle * distance)
    (s.pobj particle).growthSpeed (r.drop 2)
  let s1 := s.allocParticle newEnd
  let s2 := s1.allocLine (Line.new s1 particle s.pnext)
  { s2 with lines := s2.lines ++ [s1.lnext] }

/-- `expandFromParticle(particle, numExtensions)`. -/
def expandFromParticle (particle : ℕ) : ℕ → State → Rand → State × Rand
  | 0, s, r => (s, r)
  | n + 1, s, r => expandFromParticle particle n (expandStep particle s r) (r.drop 4)

/-- One iteration of the loop body of `initializeCenters()`: four draws for the seed,
then `expandFromParticle(centralParticle, 3)`. -/
def initializeStep (s : State) (r : Rand) : State × Rand :=
  let centerX := r 0 * s.width
  let centerY := r 1 * s.height
  let s1 := s.allocParticle (Particle.new centerX centerY normalGrowthSpeed (r.drop 2))
  let s2 := { s1 with particles := s1.particles ++ [s.pnext] }
  expandFromParticle s.pnext 3 s2 (r.drop 4)

/-- The loop of `initializeCenters()`, `n` iterations. -/
def initializeLoop : ℕ → State → Rand → State × Rand
  | 0, s, r => (s, r)
  | n + 1, s, r => initializeLoop n (initializeStep s r).1 (initializeStep s r).2

/-- `initializeCenters()`. -/
def initializeCenters (s : State) (r : Rand) : State × Rand :=
  initializeLoop 3 s r

/-- `clearTimeout(h)`. -/
def clearTimeout (s : State) : Option ℕ → State
  | none => s
  | some k => { s with timers := s.timers.filter (fun t => t.1 ≠ k) }

/-- `resetSimulation()`. -/
def resetSimulation (s : State) (r : Rand) : State × Rand :=
  let s1 := { s with particles := [], lines := [], expandedCenters := [] }
  let sr := initializeCenters s1 r
  let s2 := clearTimeout sr.1 sr.1.refreshTimeout
  ({ s2 with refreshTimeout := none }, sr.2)

/-- The predicate of `particles.every(p => Math.hypot(p.x - x, p.y - y) > 100)`. -/
def isFarEnough (s : State) (x y : ℝ) : Bool :=
  s.particles.all (fun p => decide (hypot ((s.pobj p).x - x) ((s.pobj p).y - y) > 100))

/-- The candidate point drawn in attempt `k` of `findEmptySpotAndExpand`. -/
def candidate (s : State) (r : Rand) (k : ℕ) : ℝ × ℝ :=
  (r (2 * k) * s.width, r (2 * k + 1) * s.height)

/-- The search loop of `findEmptySpotAndExpand`, with `n` attempts left. -/
def findEmptySpot (s : State) : ℕ → Rand → Option (ℝ × ℝ) × Rand
  | 0, r => (none, r)
  | n + 1, r =>
    let x := r 0 * s.width
    let y := r 1 * s.height
    if isFarEnough s x y then (some (x, y), r.drop 2)
    else findEmptySpot s n (r.drop 2)

/-- The callback of `particles.reduce` in `findEmptySpotAndExpand`. -/
def nearer (s : State) (spot : ℝ × ℝ) (nearest particle : ℕ) : ℕ :=
  if hypot ((s.pobj particle).x - spot.1) ((s.pobj particle).y - spot.2)
      < hypot ((s.pobj nearest).x - spot.1) ((s.pobj nearest).y - spot.2)
  then particle else nearest

/-- The speed reassignment `particles.forEach(p => ...)` of `findEmptySpotAndExpand`. -/
def reassignSpeeds : List ℕ → State → State
  | [], s => s
  | p :: ps, s =>
    reassignSpeeds ps
      { s with
        pobj := Function.update s.pobj p
          { s.pobj p with
            growthSpeed :=
              if p ∈ s.expandedCenters then normalGrowthSpeed else slowGrowthSpeed } }

/-- `expandedCenters.add(p)`. -/
def setAdd (set : List ℕ) (p : ℕ) : List ℕ :=
  if p ∈ set then set else set ++ [p]

/-- Errors thrown by the script. -/
inductive JsError where
  | typeError
  deriving DecidableEq

/-- The body of `if (emptySpot) { ... }` in `findEmptySpotAndExpand()`. With an empty
`particles` array `particles[0]` is `undefined`, `reduce` returns it, and
`new Line(undefined, newParticle)` throws a `TypeError` when it reads `start.x`. -/
def expandToSpot (s : State) (emptySpot : ℝ × ℝ) (r : Rand) : Except JsError (State × Rand) :=
  match s.particles with
  | [] => .error JsError.typeError
  | p0 :: _ =>
    let nearestParticle := s.particles.foldl (nearer s emptySpot) p0
    let s1 := s.allocParticle (Particle.new emptySpot.1 emptySpot.2 normalGrowthSpeed r)
    let s2 := s1.allocLine (Line.new s1 nearestParticle s.pnext)
    let s3 := { s2 with
      lines := s2.lines ++ [s1.lnext]
      expandedCenters := setAdd s2.expandedCenters s.pnext }
    .ok (reassignSpeeds s3.particles s3, r.drop 2)

/-- `findEmptySpotAndExpand()`. -/
def findEmptySpotAndExpand (s : State) (r : Rand) : Except JsError (State × Rand) :=
  match (findEmptySpot s 100 r).1 with
  | none => .ok (s, (findEmptySpot s 100 r).2)
  | some emptySpot => expandToSpot s emptySpot (findEmptySpot s 100 r).2

/-- The `particles.forEach` loop of `addParticles()`. -/
def addParticlesLoop : List ℕ → State → Rand → State × Rand
  | [], s, r => (s, r)
  | p :: ps, s, r =>
    if (s.pobj p).active = true then
      addParticlesLoop ps (expandFromParticle p 1 s r).1 (expandFromParticle p 1 s r).2
    else addParticlesLoop ps s r

/-- `addParticles()`. -/
def addParticles (s : State) (r : Rand) : Except JsError (State × Rand) :=
  let sr := addParticlesLoop s.particles s r
  if maxParticles ≤ sr.1.particles.length ∧ sr.1.expandedCenters.length < 100 then
    findEmptySpotAndExpand sr.1 sr.2
  else .ok sr

/-- The state change of one `animate()` frame: `lines.forEach(line => line.grow())`. -/
def animate (s : State) : State :=
  s.lines.foldl Line.grow s

/-- The state of the script before its first statement runs, for a given viewport. -/
def State.initial (width height : ℝ) : State :=
  { width := width
    height := height
    pobj := fun _ => Particle.new 0 0 normalGrowthSpeed (fun _ => 0)
    pnext := 0
    lobj := fun _ =>
      { start := 0, endP := 0, currentX := 0, currentY := 0, growthSpeed := 0, complete := true }
    lnext := 0
    particles := []
    lines := []
    expandedCenters := []
    refreshTimeout := none
    timers := []
    tnext := 0 }

/-- The active particles among `ps`, in order. -/
def activeOf (s : State) (ps : List ℕ) : List ℕ :=
  ps.filter (fun p => (s.pobj p).active)

/-- Distance that the line `lid` still has to cover: from its current position to its
end particle. -/
def remaining (s : State) (lid : ℕ) : ℝ :=
  hypot ((s.pobj (s.lobj lid).endP).x - (s.lobj lid).currentX)
    ((s.pobj (s.lobj lid).endP).y - (s.lobj lid).currentY)

/-- The effect of the snapping branch of `grow()` (lines 60-65 of the source) on the line
`lid`, named for use in the statements below. -/
def Line.finish (s : State) (lid : ℕ) : State :=
  checkRefresh
    { s with
      lobj := Function.update s.lobj lid
        { s.lobj lid with
          currentX := (s.pobj (s.lobj lid).endP).x
          currentY := (s.pobj (s.lobj lid).endP).y
          complete := true }
      pobj := Function.update s.pobj (s.lobj lid).endP
        { s.pobj (s.lobj lid).endP with active := true }
      particles := s.particles ++ [(s.lobj lid).endP] }

/-- A concrete state: one active particle at the origin, one pending particle at
`(300, 0)`, and one fresh line of growth speed `0.3` between them. -/
def demoState : State :=
  { State.initial 800 600 with
    pobj := fun i =>
      { x := if i = 1 then 300 else 0, y := 0, radius := 1, color := 185,
        growthSpeed := 0.3, active := true }
    pnext := 2
    lobj := fun _ =>
      { start := 0, endP := 1, currentX := 0, currentY := 0, growthSpeed := 0.3,
        complete := false }
    lnext := 1
    particles := [0]
    lines := [0] }

/-- The state `demoState` with its line advanced to `(299.9, 0)`, a distance `0.1` short
of the end particle. -/
def demoNear : State :=
  { demoState with
    lobj := fun _ =>
      { start := 0, endP := 1, currentX := 299.9, currentY := 0, growthSpeed := 0.3,
        complete := false } }

/-- Distance from the particle `q` to the point `spot`, as computed inside the `reduce`
callback of `findEmptySpotAndExpand`. -/
def distTo (s : State) (spot : ℝ × ℝ) (q : ℕ) : ℝ :=
  hypot ((s.pobj q).x - spot.1) ((s.pobj q).y - spot.2)

/-- One call of a state-changing function of the script other than `resetSimulation()`,
made in state `s` and returning normally in state `s'`: `grow()` on a line of the live
collection, `addParticles()`, `findEmptySpotAndExpand()` or `checkRefresh()`. -/
inductive Step : State → State → Prop
  | grow (s : State) (lid : ℕ) (h : lid ∈ s.lines) : Step s (Line.grow s lid)
  | add (s s' : State) (r r' : Rand) (h : addParticles s r = .ok (s', r')) : Step s s'
  | relief (s s' : State) (r r' : Rand) (h : findEmptySpotAndExpand s r = .ok (s', r')) :
      Step s s'
  | refresh (s : State) : Step s (checkRefresh s)

/-- The states reachable from `initializeCenters()` on the initial state by calls of
`grow()`, `addParticles()`, `findEmptySpotAndExpand()`, `checkRefresh()` and
`resetSimulation()`, the latter also as run by the `resize` listener after it updated
`width` and `height`. -/
inductive Reachable : State → Prop
  | init (width height : ℝ) (r : Rand) :
      Reachable (initializeCenters (State.initial width height) r).1
  | step (s s' : State) (hs : Reachable s) (h : Step s s') : Reachable s'
  | reset (s : State) (r : Rand) (hs : Reachable s) : Reachable (resetSimulation s r).1
  | resize (s : State) (width height : ℝ) (r : Rand) (hs : Reachable s) :
      Reachable (resetSimulation { s with width := width, height := height } r).1

/-- The call left the timer handle and the pending timeouts as they were. -/
def TimerKept (s s' : State) : Prop :=
  s'.refreshTimeout = s.refreshTimeout ∧ s'.timers = s.timers ∧ s'.tnext = s.tnext

/-- The call found the timer handle empty and scheduled one new timeout of 45000 ms,
whose handle it stored. -/
def TimerArmed (s s' : State) : Prop :=
  s.refreshTimeout = none ∧ s'.refreshTimeout = some s.tnext ∧
    s'.timers = s.timers ++ [(s.tnext, 45000)] ∧ s'.tnext = s.tnext + 1

/-- A growth speed that the script assigns: the normal or the slow one. -/
def SpeedOK (v : ℝ) : Prop := v = normalGrowthSpeed ∨ v = slowGrowthSpeed

/-- Invariant of the reachable states: the live particles are distinct allocated objects;
every live line is an allocated object whose end particle is allocated and is live exactly
when the line is complete; distinct live lines have distinct end particles; every
allocated particle and line has one of the two growth speeds. -/
structure Inv (s : State) : Prop where
  nodup : s.particles.Nodup
  live : ∀ p ∈ s.particles, p < s.pnext
  line : ∀ l ∈ s.lines, l < s.lnext ∧ (s.lobj l).endP < s.pnext ∧
    ((s.lobj l).endP ∈ s.particles ↔ (s.lobj l).complete = true)
  ends : ∀ l ∈ s.lines, ∀ l' ∈ s.lines, (s.lobj l).endP = (s.lobj l').endP → l = l'
  pspeed : ∀ q, q < s.pnext → SpeedOK (s.pobj q).growthSpeed
  lspeed : ∀ l, l < s.lnext → SpeedOK (s.lobj l).growthSpeed

/-- The two periodic callbacks of the script: one animation frame, and one run of the
`setInterval(addParticles, 1800)` callback with the draws it consumes. -/
inductive Event where
  | frame
  | tick (r : Rand)

/-- The state after one callback. An `addParticles()` that throws does so before it has
changed anything, so the state is then the one before the call. -/
def runEvent (s : State) : Event → State
  | Event.frame => animate s
  | Event.tick r =>
    match addParticles s r with
    | .ok sr => sr.1
    | .error _ => s

/-- The state after a sequence of callbacks with no reset in between. -/
def runEvents (s : State) (evs : List Event) : State :=
  evs.foldl runEvent s

/-- Number of animation frames in a sequence of callbacks. -/
def frameCount : List Event → ℕ
  | [] => 0
  | Event.frame :: evs => frameCount evs + 1
  | Event.tick _ :: evs => frameCount evs

/-- Progress of the line `l`: it has growth speed `v` and is complete or less than `k`
steps of length `v` away from its end. -/
def Within (l : ℕ) (v : ℝ) (k : ℕ) (s : State) : Prop :=
  (s.lobj l).growthSpeed = v ∧
    ((s.lobj l).complete = true ∨ remaining s l < (k : ℝ) * v)

/-- The states the running script passes through: it starts with `initializeCenters()` on
the initial state; then the host runs, one at a time, an animation frame, the
`addParticles()` interval callback, the pending reset timeout (which is thereby no longer
pending), or the `resize` listener. An `addParticles()` that throws leaves the state as it
was. -/
inductive Runs : State → Prop
  | start (width height : ℝ) (r : Rand) :
      Runs (initializeCenters (State.initial width height) r).1
  | frame (s : State) (hs : Runs s) : Runs (animate s)
  | tick (s s' : State) (r r' : Rand) (hs : Runs s) (h : addParticles s r = .ok (s', r')) :
      Runs s'
  | timeout (s : State) (t : ℕ × ℕ) (r : Rand) (hs : Runs s) (ht : t ∈ s.timers) :
      Runs (resetSimulation { s with timers := s.timers.filter (fun u => u ≠ t) } r).1
  | resize (s : State) (width height : ℝ) (r : Rand) (hs : Runs s) :
      Runs (resetSimulation { s with width := width, height := height } r).1

/-- The live particle collection is not empty and holds active particles only. -/
def LiveActive (s : State) : Prop :=
  s.particles ≠ [] ∧ ∀ p ∈ s.particles, (s.pobj p).active = true

/-- A concrete state with 2000 live particles (references 0 to 1999) and one line that is
`0.1` short of its end particle (reference 2000) at `(300, 0)`. -/
def crowdedState : State :=
  { State.initial 800 600 with
    pobj := fun i =>
      { x := if i = 2000 then 300 else 0, y := 0, radius := 1, color := 185,
        growthSpeed := 0.3, active := true }
    pnext := 2001
    lobj := fun _ =>
      { start := 0, endP := 2000, currentX := 299.9, currentY := 0, growthSpeed := 0.3,
        complete := false }
    lnext := 1
    particles := List.range 2000
    lines := [0] }

/-! ## Arithmetic of `Math.hypot` -/

lemma hypot_nonneg (a b : ℝ) : 0 ≤ hypot a b := Real.sqrt_nonneg _

lemma hypot_mul_self (a b : ℝ) : hypot a b * hypot a b = a * a + b * b := by
  unfold hypot
  exact Real.mul_self_sqrt (add_nonneg (mul_self_nonneg a) (mul_self_nonneg b))

lemma hypot_zero : hypot 0 0 = 0 := by
  simp [hypot]

/-- Moving by `step` along the unit vector towards the target shortens the distance by
exactly `step`, provided the target is at least `step` away. -/
lemma hypot_advance (dx dy step : ℝ) (hs : 0 < step) (h : step ≤ hypot dx dy) :
    hypot (dx - dx / hypot dx dy * step) (dy - dy / hypot dx dy * step)
      = hypot dx dy - step := by
  have hr : 0 < hypot dx dy := lt_of_lt_of_le hs h
  have hsq := hypot_mul_self dx dy
  have key : (dx - dx / hypot dx dy * step) * (dx - dx / hypot dx dy * step)
      + (dy - dy / hypot dx dy * step) * (dy - dy / hypot dx dy * step)
      = (hypot dx dy - step) * (hypot dx dy - step) := by
    have hne : hypot dx dy ≠ 0 := ne_of_gt hr
    field_simp
    generalize hypot dx dy = r at *
    nlinarith [hsq]
  show Real.sqrt _ = _
  rw [key]
  exact Real.sqrt_mul_self (by linarith)

/-! ## `checkRefresh` and `Line.grow` -/

@[simp] lemma checkRefresh_pobj (s : State) : (checkRefresh s).pobj = s.pobj := by
  unfold checkRefresh; split <;> rfl

@[simp] lemma checkRefresh_lobj (s : State) : (checkRefresh s).lobj = s.lobj := by
  unfold checkRefresh; split <;> rfl

@[simp] lemma checkRefresh_particles (s : State) :
    (checkRefresh s).particles = s.particles := by
  unfold checkRefresh; split <;> rfl

@[simp] lemma checkRefresh_lines (s : State) : (checkRefresh s).lines = s.lines := by
  unfold checkRefresh; split <;> rfl

@[simp] lemma checkRefresh_expandedCenters (s : State) :
    (checkRefresh s).expandedCenters = s.expandedCenters := by
  unfold checkRefresh; split <;> rfl

@[simp] lemma checkRefresh_pnext (s : State) : (checkRefresh s).pnext = s.pnext := by
  unfold checkRefresh; split <;> rfl

@[simp] lemma checkRefresh_lnext (s : State) : (checkRefresh s).lnext = s.lnext := by
  unfold checkRefresh; split <;> rfl

@[simp] lemma checkRefresh_width (s : State) : (checkRefresh s).width = s.width := by
  unfold checkRefresh; split <;> rfl

@[simp] lemma checkRefresh_height (s : State) : (checkRefresh s).height = s.height := by
  unfold checkRefresh; split <;> rfl

/-- A complete line is not touched by `grow()`. -/
lemma grow_of_complete (s : State) (lid : ℕ) (h : (s.lobj lid).complete = true) :
    Line.grow s lid = s := by
  simp [Line.grow, h]

lemma growN_of_complete (s : State) (lid : ℕ) (h : (s.lobj lid).complete = true) (n : ℕ) :
    growN lid n s = s := by
  induction n with
  | zero => rfl
  | succ n ih => simp [growN, grow_of_complete s lid h, ih]

lemma growN_succ_right (lid : ℕ) (n : ℕ) (s : State) :
    growN lid (n + 1) s = Line.grow (growN lid n s) lid := by
  induction n generalizing s with
  | zero => rfl
  | succ n ih => exact ih (Line.grow s lid)

/-- The snapping branch of `grow()`. -/
lemma grow_near (s : State) (lid : ℕ) (hinc : (s.lobj lid).complete = false)
    (hnear : remaining s lid < (s.lobj lid).growthSpeed) :
    Line.grow s lid = Line.finish s lid := by
  unfold remaining hypot at hnear
  simp only [Line.grow, hinc, if_true, hnear, Line.finish]

/-- The advancing branch of `grow()`. -/
lemma grow_far (s : State) (lid : ℕ) (hinc : (s.lobj lid).complete = false)
    (hfar : ¬ remaining s lid < (s.lobj lid).growthSpeed) :
    Line.grow s lid =
      { s with
        lobj := Function.update s.lobj lid
          { s.lobj lid with
            currentX := (s.lobj lid).currentX +
              ((s.pobj (s.lobj lid).endP).x - (s.lobj lid).currentX) / remaining s lid
                * (s.lobj lid).growthSpeed
            currentY := (s.lobj lid).currentY +
              ((s.pobj (s.lobj lid).endP).y - (s.lobj lid).currentY) / remaining s lid
                * (s.lobj lid).growthSpeed } } := by
  unfold remaining hypot at hfar
  simp only [Line.grow, hinc, if_true, hfar, if_false, remaining, hypot]

/-- After an advancing step the remaining distance is shorter by exactly the growth
speed. -/
lemma remaining_grow_far (s : State) (lid : ℕ) (hinc : (s.lobj lid).complete = false)
    (hs : 0 < (s.lobj lid).growthSpeed)
    (hfar : ¬ remaining s lid < (s.lobj lid).growthSpeed) :
    remaining (Line.grow s lid) lid = remaining s lid - (s.lobj lid).growthSpeed := by
  rw [grow_far s lid hinc hfar]
  have h := hypot_advance ((s.pobj (s.lobj lid).endP).x - (s.lobj lid).currentX)
    ((s.pobj (s.lobj lid).endP).y - (s.lobj lid).currentY) (s.lobj lid).growthSpeed hs
    (not_lt.mp hfar)
  simp only [remaining, Function.update_same] at h ⊢
  rw [← h]
  congr 1 <;> ring

/-- An advancing step followed by the snap has the effect of the snap alone. -/
lemma finish_grow_far (s : State) (lid : ℕ) (hinc : (s.lobj lid).complete = false)
    (hfar : ¬ remaining s lid < (s.lobj lid).growthSpeed) :
    Line.finish (Line.grow s lid) lid = Line.finish s lid := by
  rw [grow_far s lid hinc hfar]
  simp [Line.finish]

/-- Completion lemma: with `k` full steps of room, the line is still incomplete after
`k` calls and call `k + 1` takes the snapping branch; the `k + 1` calls together have
the effect of a single snap. -/
lemma growN_completes (lid : ℕ) (k : ℕ) : ∀ s : State,
    (s.lobj lid).complete = false → 0 < (s.lobj lid).growthSpeed →
    (k : ℝ) * (s.lobj lid).growthSpeed ≤ remaining s lid →
    remaining s lid < ((k : ℝ) + 1) * (s.lobj lid).growthSpeed →
    (∀ m, m ≤ k → ((growN lid m s).lobj lid).complete = false) ∧
    growN lid (k + 1) s = Line.finish s lid := by
  induction k with
  | zero =>
    intro s hinc hs _ hlt
    have hnear : remaining s lid < (s.lobj lid).growthSpeed := by simpa using hlt
    refine ⟨?_, ?_⟩
    · intro m hm
      have : m = 0 := by omega
      subst this
      exact hinc
    · simp [growN, grow_near s lid hinc hnear]
  | succ k ih =>
    intro s hinc hs hle hlt
    have hfar : ¬ remaining s lid < (s.lobj lid).growthSpeed := by
      push_cast at hle
      have : 0 ≤ (k : ℝ) * (s.lobj lid).growthSpeed :=
        mul_nonneg (Nat.cast_nonneg k) hs.le
      linarith
    have hrem := remaining_grow_far s lid hinc hs hfar
    have hinc1 : ((Line.grow s lid).lobj lid).complete = false := by
      rw [grow_far s lid hinc hfar]; simpa using hinc
    have hsp : ((Line.grow s lid).lobj lid).growthSpeed = (s.lobj lid).growthSpeed := by
      rw [grow_far s lid hinc hfar]; simp
    have h := ih (Line.grow s lid) hinc1 (by rw [hsp]; exact hs)
      (by rw [hsp, hrem]; push_cast at hle; linarith)
      (by rw [hsp, hrem]; push_cast at hlt; linarith)
    rw [finish_grow_far s lid hinc hfar] at h
    refine ⟨?_, h.2⟩
    intro m hm
    cases m with
    | zero => exact hinc
    | succ m => exact h.1 m (by omega)

/-- What the snap leaves behind in the line object. -/
lemma finish_lobj (s : State) (lid : ℕ) :
    (Line.finish s lid).lobj lid =
      { s.lobj lid with
        currentX := (s.pobj (s.lobj lid).endP).x
        currentY := (s.pobj (s.lobj lid).endP).y
        complete := true } := by
  simp [Line.finish]

/-- What the snap leaves behind in the end particle. -/
lemma finish_pobj_end (s : State) (lid : ℕ) :
    (Line.finish s lid).pobj (s.lobj lid).endP =
      { s.pobj (s.lobj lid).endP with active := true } := by
  simp [Line.finish]

lemma finish_particles (s : State) (lid : ℕ) :
    (Line.finish s lid).particles = s.particles ++ [(s.lobj lid).endP] := by
  simp [Line.finish]

lemma growN_add (lid : ℕ) (m n : ℕ) (s : State) :
    growN lid (m + n) s = growN lid n (growN lid m s) := by
  induction m generalizing s with
  | zero => simp [growN]
  | succ m ih =>
    have : m + 1 + n = (m + n) + 1 := by omega
    rw [this]
    exact ih (Line.grow s lid)

/-- Once the line is complete after `n` calls, further calls change nothing. -/
lemma growN_stable (lid : ℕ) (n N : ℕ) (s : State) (hn : n ≤ N)
    (h : ((growN lid n s).lobj lid).complete = true) :
    growN lid N s = growN lid n s := by
  obtain ⟨j, rfl⟩ := Nat.exists_eq_add_of_le hn
  rw [growN_add, growN_of_complete _ lid h]

/-! ## `expandFromParticle` -/

/-- Everything `expandFromParticle` leaves alone, and the references it hands out. -/
lemma expandFromParticle_frame (p : ℕ) (n : ℕ) : ∀ (s : State) (r : Rand),
    (expandFromParticle p n s r).2 = r.drop (4 * n) ∧
    (expandFromParticle p n s r).1.pnext = s.pnext + n ∧
    (expandFromParticle p n s r).1.lnext = s.lnext + n ∧
    (expandFromParticle p n s r).1.particles = s.particles ∧
    (expandFromParticle p n s r).1.lines = s.lines ++ List.range' s.lnext n ∧
    (expandFromParticle p n s r).1.expandedCenters = s.expandedCenters ∧
    (expandFromParticle p n s r).1.refreshTimeout = s.refreshTimeout ∧
    (expandFromParticle p n s r).1.timers = s.timers ∧
    (expandFromParticle p n s r).1.tnext = s.tnext ∧
    (expandFromParticle p n s r).1.width = s.width ∧
    (expandFromParticle p n s r).1.height = s.height ∧
    (∀ q, q < s.pnext → (expandFromParticle p n s r).1.pobj q = s.pobj q) ∧
    (∀ l, l < s.lnext → (expandFromParticle p n s r).1.lobj l = s.lobj l) := by
  induction n with
  | zero =>
    intro s r
    exact ⟨rfl, rfl, rfl, rfl, by simp [expandFromParticle], rfl, rfl, rfl, rfl, rfl, rfl,
      fun _ _ => rfl, fun _ _ => rfl⟩
  | succ n ih =>
    intro s r
    obtain ⟨h1, h2, h3, h4, h5, h6, h7, h8, h9, h10, h11, h12, h13⟩ :=
      ih (expandStep p s r) (r.drop 4)
    simp only [expandFromParticle]
    refine ⟨?_, ?_, ?_, ?_, ?_, ?_, ?_, ?_, ?_, ?_, ?_, ?_, ?_⟩
    · rw [h1]; funext i; simp only [Rand.drop]; rfl
    · rw [h2]; simp only [expandStep, State.allocParticle, State.allocLine]; omega
    · rw [h3]; simp only [expandStep, State.allocParticle, State.allocLine]; omega
    · rw [h4]; rfl
    · rw [h5]
      simp only [expandStep, State.allocParticle, State.allocLine, List.range'_succ,
        List.append_assoc, List.singleton_append]
    · rw [h6]; rfl
    · rw [h7]; rfl
    · rw [h8]; rfl
    · rw [h9]; rfl
    · rw [h10]; rfl
    · rw [h11]; rfl
    · intro q hq
      rw [h12 q (by simp only [expandStep, State.allocParticle, State.allocLine]; omega)]
      simp only [expandStep, State.allocParticle, State.allocLine]
      exact Function.update_noteq (by omega) _ _
    · intro l hl
      rw [h13 l (by simp only [expandStep, State.allocParticle, State.allocLine]; omega)]
      simp only [expandStep, State.allocParticle, State.allocLine]
      exact Function.update_noteq (by omega) _ _

/-- The line and end particle created by iteration `i` of `expandFromParticle`. -/
lemma expandFromParticle_objects (p : ℕ) (n : ℕ) : ∀ (s : State) (r : Rand),
    p < s.pnext → ∀ i, i < n →
    (expandFromParticle p n s r).1.lobj (s.lnext + i) =
      { start := p, endP := s.pnext + i, currentX := (s.pobj p).x,
        currentY := (s.pobj p).y, growthSpeed := (s.pobj p).growthSpeed,
        complete := false } ∧
    (expandFromParticle p n s r).1.pobj (s.pnext + i) =
      { x := (s.pobj p).x
          + Real.cos (r (4 * i) * Real.pi * 2) * (20 + r (4 * i + 1) * 300)
        y := (s.pobj p).y
          + Real.sin (r (4 * i) * Real.pi * 2) * (20 + r (4 * i + 1) * 300)
        radius := 1 + r (4 * i + 2) * 5
        color := 185 + ⌊r (4 * i + 3) * 700⌋
        growthSpeed := (s.pobj p).growthSpeed
        active := true } := by
  induction n with
  | zero => intro s r _ i hi; omega
  | succ n ih =>
    intro s r hp i hi
    have hps : (expandStep p s r).pnext = s.pnext + 1 := rfl
    have hls : (expandStep p s r).lnext = s.lnext + 1 := rfl
    have hpp : (expandStep p s r).pobj p = s.pobj p := by
      simp only [expandStep, State.allocParticle, State.allocLine]
      exact Function.update_noteq (by omega) _ _
    obtain ⟨-, -, -, -, -, -, -, -, -, -, -, h12, h13⟩ :=
      expandFromParticle_frame p n (expandStep p s r) (r.drop 4)
    simp only [expandFromParticle]
    cases i with
    | zero =>
      rw [Nat.add_zero, Nat.add_zero, h12 _ (by omega), h13 _ (by omega)]
      simp [expandStep, State.allocParticle, State.allocLine, Line.new, Particle.new,
        Rand.drop, Function.update_noteq (Nat.ne_of_lt hp)]
    | succ i =>
      have h := ih (expandStep p s r) (r.drop 4) (by omega) i (by omega)
      rw [hps, hls, hpp] at h
      have e1 : s.lnext + (i + 1) = s.lnext + 1 + i := by omega
      have e2 : s.pnext + (i + 1) = s.pnext + 1 + i := by omega
      have e3 : 4 * (i + 1) = 4 * i + 4 := by omega
      rw [e1, e2, e3]
      simpa [Rand.drop, add_assoc] using h

/-! ## `initializeCenters` and `resetSimulation` -/

/-- One seed: what the iteration leaves alone and what it creates. -/
lemma initializeStep_spec (s : State) (r : Rand) :
    (initializeStep s r).1.pnext = s.pnext + 4 ∧
    (initializeStep s r).1.lnext = s.lnext + 3 ∧
    (initializeStep s r).1.particles = s.particles ++ [s.pnext] ∧
    (initializeStep s r).1.lines = s.lines ++ List.range' s.lnext 3 ∧
    (initializeStep s r).1.expandedCenters = s.expandedCenters ∧
    (initializeStep s r).1.refreshTimeout = s.refreshTimeout ∧
    (initializeStep s r).1.timers = s.timers ∧
    (initializeStep s r).1.tnext = s.tnext ∧
    (initializeStep s r).1.width = s.width ∧
    (initializeStep s r).1.height = s.height ∧
    (∀ q, q < s.pnext → (initializeStep s r).1.pobj q = s.pobj q) ∧
    (∀ l, l < s.lnext → (initializeStep s r).1.lobj l = s.lobj l) ∧
    (initializeStep s r).1.pobj s.pnext
      = Particle.new (r 0 * s.width) (r 1 * s.height) normalGrowthSpeed (r.drop 2) ∧
    (∀ i, i < 3 →
      ((initializeStep s r).1.lobj (s.lnext + i)).start = s.pnext ∧
      ((initializeStep s r).1.lobj (s.lnext + i)).endP = s.pnext + 1 + i ∧
      ((initializeStep s r).1.lobj (s.lnext + i)).complete = false) := by
  obtain ⟨-, h2, h3, h4, h5, h6, h7, h8, h9, h10, h11, h12, h13⟩ :=
    expandFromParticle_frame s.pnext 3
      { s.allocParticle
          (Particle.new (r 0 * s.width) (r 1 * s.height) normalGrowthSpeed (r.drop 2)) with
        particles := s.particles ++ [s.pnext] } (r.drop 4)
  have hobj := expandFromParticle_objects s.pnext 3
      { s.allocParticle
          (Particle.new (r 0 * s.width) (r 1 * s.height) normalGrowthSpeed (r.drop 2)) with
        particles := s.particles ++ [s.pnext] } (r.drop 4)
      (by simp [State.allocParticle])
  simp only [State.allocParticle] at h2 h3 h4 h5 h6 h7 h8 h9 h10 h11 h12 h13 hobj
  refine ⟨by rw [initializeStep, State.allocParticle, h2],
    h3, h4, h5, h6, h7, h8, h9, h10, h11, ?_, h13, ?_, ?_⟩
  · intro q hq
    rw [initializeStep, State.allocParticle, h12 q (by omega)]
    exact Function.update_noteq (by omega) _ _
  · rw [initializeStep, State.allocParticle, h12 s.pnext (by omega)]
    exact Function.update_same _ _ _
  · intro i hi
    have h := (hobj i hi).1
    rw [initializeStep, State.allocParticle, h]
    exact ⟨rfl, rfl, rfl⟩

/-- The seeds and branches created by `n` iterations of the loop of
`initializeCenters()`. -/
lemma initializeLoop_spec (n : ℕ) : ∀ (s : State) (r : Rand),
    (initializeLoop n s r).1.pnext = s.pnext + 4 * n ∧
    (initializeLoop n s r).1.lnext = s.lnext + 3 * n ∧
    (initializeLoop n s r).1.particles
      = s.particles ++ (List.range n).map (fun k => s.pnext + 4 * k) ∧
    (initializeLoop n s r).1.lines = s.lines ++ List.range' s.lnext (3 * n) ∧
    (initializeLoop n s r).1.expandedCenters = s.expandedCenters ∧
    (initializeLoop n s r).1.refreshTimeout = s.refreshTimeout ∧
    (initializeLoop n s r).1.timers = s.timers ∧
    (initializeLoop n s r).1.tnext = s.tnext ∧
    (initializeLoop n s r).1.width = s.width ∧
    (initializeLoop n s r).1.height = s.height ∧
    (∀ q, q < s.pnext → (initializeLoop n s r).1.pobj q = s.pobj q) ∧
    (∀ l, l < s.lnext → (initializeLoop n s r).1.lobj l = s.lobj l) ∧
    (∀ k, k < n → ((initializeLoop n s r).1.pobj (s.pnext + 4 * k)).active = true) ∧
    (∀ k, k < n → ∀ i, i < 3 →
      ((initializeLoop n s r).1.lobj (s.lnext + 3 * k + i)).start = s.pnext + 4 * k ∧
      ((initializeLoop n s r).1.lobj (s.lnext + 3 * k + i)).endP = s.pnext + 4 * k + 1 + i ∧
      ((initializeLoop n s r).1.lobj (s.lnext + 3 * k + i)).complete = false) := by
  induction n with
  | zero =>
    intro s r
    refine ⟨rfl, rfl, by simp [initializeLoop], by simp [initializeLoop], rfl, rfl, rfl,
      rfl, rfl, rfl, fun _ _ => rfl, fun _ _ => rfl, ?_, ?_⟩
    · intro k hk; omega
    · intro k hk; omega
  | succ n ih =>
    intro s r
    obtain ⟨a1, a2, a3, a4, a5, a6, a7, a8, a9, a10, a11, a12, a13, a14⟩ :=
      initializeStep_spec s r
    obtain ⟨b1, b2, b3, b4, b5, b6, b7, b8, b9, b10, b11, b12, b13, b14⟩ :=
      ih (initializeStep s r).1 (initializeStep s r).2
    simp only [initializeLoop]
    rw [a1] at b1 b3 b11 b13 b14
    rw [a2] at b2 b4 b12 b14
    refine ⟨by rw [b1]; omega, by rw [b2]; omega, ?_, ?_, by rw [b5, a5], by rw [b6, a6],
      by rw [b7, a7], by rw [b8, a8], by rw [b9, a9], by rw [b10, a10], ?_, ?_, ?_, ?_⟩
    · rw [b3, a3, List.range_succ_eq_map, List.map_cons, List.map_map, List.append_assoc]
      congr 1
      refine congrArg (List.cons s.pnext) ?_
      apply List.map_congr_left
      intro k _
      show s.pnext + 4 + 4 * k = s.pnext + 4 * (k + 1)
      omega
    · rw [b4, a4, List.append_assoc]
      rfl
    · intro q hq
      rw [b11 q (by omega), a11 q hq]
    · intro l hl
      rw [b12 l (by omega), a12 l hl]
    · intro k hk
      cases k with
      | zero =>
        rw [Nat.mul_zero, Nat.add_zero, b11 _ (by omega), a13]
        rfl
      | succ k =>
        have h := b13 k (by omega)
        have e : s.pnext + 4 * (k + 1) = s.pnext + 4 + 4 * k := by omega
        rw [e]
        exact h
    · intro k hk i hi
      cases k with
      | zero =>
        have h := a14 i hi
        rw [← b12 (s.lnext + i) (by omega)] at h
        exact h
      | succ k =>
        have h := b14 k (by omega) i hi
        have e1 : s.lnext + 3 * (k + 1) + i = s.lnext + 3 + 3 * k + i := by omega
        have e2 : s.pnext + 4 * (k + 1) = s.pnext + 4 + 4 * k := by omega
        rw [e1, e2]
        exact h

@[simp] lemma clearTimeout_particles (s : State) (h : Option ℕ) :
    (clearTimeout s h).particles = s.particles := by
  cases h <;> rfl

@[simp] lemma clearTimeout_lines (s : State) (h : Option ℕ) :
    (clearTimeout s h).lines = s.lines := by
  cases h <;> rfl

@[simp] lemma clearTimeout_expandedCenters (s : State) (h : Option ℕ) :
    (clearTimeout s h).expandedCenters = s.expandedCenters := by
  cases h <;> rfl

@[simp] lemma clearTimeout_pobj (s : State) (h : Option ℕ) :
    (clearTimeout s h).pobj = s.pobj := by
  cases h <;> rfl

@[simp] lemma clearTimeout_lobj (s : State) (h : Option ℕ) :
    (clearTimeout s h).lobj = s.lobj := by
  cases h <;> rfl

lemma clearTimeout_timers_some (s : State) (k : ℕ) :
    ∀ t ∈ (clearTimeout s (some k)).timers, t.1 ≠ k := by
  intro t ht
  simpa [clearTimeout] using (List.mem_filter.mp ht).2

/-! ## `findEmptySpotAndExpand` -/

lemma isFarEnough_iff (s : State) (x y : ℝ) :
    isFarEnough s x y = true ↔
      ∀ p ∈ s.particles, hypot ((s.pobj p).x - x) ((s.pobj p).y - y) > 100 := by
  simp [isFarEnough, List.all_eq_true]

lemma isFarEnough_false_iff (s : State) (x y : ℝ) :
    isFarEnough s x y = false ↔
      ∃ p ∈ s.particles, hypot ((s.pobj p).x - x) ((s.pobj p).y - y) ≤ 100 := by
  rw [← Bool.not_eq_true, isFarEnough_iff]
  push_neg
  rfl

lemma candidate_drop (s : State) (r : Rand) (k : ℕ) :
    candidate s (r.drop 2) k = candidate s r (k + 1) := rfl

/-- The search fails when no candidate of the `n` attempts is far enough; it has then
consumed `2 * n` draws. -/
lemma findEmptySpot_none (s : State) (n : ℕ) : ∀ r : Rand,
    (∀ k, k < n → isFarEnough s (candidate s r k).1 (candidate s r k).2 = false) →
    findEmptySpot s n r = (none, r.drop (2 * n)) := by
  induction n with
  | zero => intro r _; rfl
  | succ n ih =>
    intro r h
    have h0 : isFarEnough s (r 0 * s.width) (r 1 * s.height) = false := h 0 (by omega)
    have hrest := ih (r.drop 2) (fun k hk => by
      rw [candidate_drop]; exact h (k + 1) (by omega))
    simp only [findEmptySpot, h0, hrest]
    simp only [Bool.false_eq_true, if_false, Rand.drop, Prod.mk.injEq, true_and]
    funext i
    rfl

/-- The search succeeds at the first attempt whose candidate is far enough. -/
lemma findEmptySpot_first (s : State) (n : ℕ) : ∀ (r : Rand) (k : ℕ), k < n →
    isFarEnough s (candidate s r k).1 (candidate s r k).2 = true →
    (∀ j, j < k → isFarEnough s (candidate s r j).1 (candidate s r j).2 = false) →
    findEmptySpot s n r = (some (candidate s r k), r.drop (2 * (k + 1))) := by
  induction n with
  | zero => intro r k hk; omega
  | succ n ih =>
    intro r k hk hfar hbefore
    cases k with
    | zero =>
      have h0 : isFarEnough s (r 0 * s.width) (r 1 * s.height) = true := hfar
      simp only [findEmptySpot, h0, if_true]
      rfl
    | succ k =>
      have h0 : isFarEnough s (r 0 * s.width) (r 1 * s.height) = false :=
        hbefore 0 (by omega)
      have hrest := ih (r.drop 2) k (by omega)
        (by rw [candidate_drop]; exact hfar)
        (fun j hj => by rw [candidate_drop]; exact hbefore (j + 1) (by omega))
      simp only [findEmptySpot, h0, hrest, candidate_drop]
      simp only [Bool.false_eq_true, if_false, Rand.drop, Prod.mk.injEq, true_and]
      funext i
      rfl

/-- Either no candidate is far enough, or there is a first one. -/
lemma first_candidate (s : State) (r : Rand) (n : ℕ) :
    (∀ k, k < n → isFarEnough s (candidate s r k).1 (candidate s r k).2 = false) ∨
    ∃ k, k < n ∧ isFarEnough s (candidate s r k).1 (candidate s r k).2 = true ∧
      ∀ j, j < k → isFarEnough s (candidate s r j).1 (candidate s r j).2 = false := by
  induction n with
  | zero => left; intro k hk; omega
  | succ n ih =>
    rcases ih with h | ⟨k, hk, hfar, hbefore⟩
    · cases hn : isFarEnough s (candidate s r n).1 (candidate s r n).2 with
      | false =>
        left
        intro k hk
        rcases Nat.lt_succ_iff_lt_or_eq.mp hk with h1 | rfl
        · exact h k h1
        · exact hn
      | true => exact Or.inr ⟨n, by omega, hn, h⟩
    · exact Or.inr ⟨k, by omega, hfar, hbefore⟩

/-- The speed reassignment touches nothing but growth speeds. -/
lemma reassignSpeeds_frame (ps : List ℕ) : ∀ s : State,
    (reassignSpeeds ps s).pnext = s.pnext ∧
    (reassignSpeeds ps s).lnext = s.lnext ∧
    (reassignSpeeds ps s).particles = s.particles ∧
    (reassignSpeeds ps s).lines = s.lines ∧
    (reassignSpeeds ps s).expandedCenters = s.expandedCenters ∧
    (reassignSpeeds ps s).refreshTimeout = s.refreshTimeout ∧
    (reassignSpeeds ps s).timers = s.timers ∧
    (reassignSpeeds ps s).tnext = s.tnext ∧
    (reassignSpeeds ps s).lobj = s.lobj ∧
    (∀ q, ((reassignSpeeds ps s).pobj q).x = (s.pobj q).x ∧
      ((reassignSpeeds ps s).pobj q).y = (s.pobj q).y ∧
      ((reassignSpeeds ps s).pobj q).radius = (s.pobj q).radius ∧
      ((reassignSpeeds ps s).pobj q).color = (s.pobj q).color ∧
      ((reassignSpeeds ps s).pobj q).active = (s.pobj q).active) ∧
    (∀ q, q ∉ ps → (reassignSpeeds ps s).pobj q = s.pobj q) := by
  induction ps with
  | nil => intro s; simp [reassignSpeeds]
  | cons p ps ih =>
    intro s
    obtain ⟨h1, h2, h3, h4, h5, h6, h7, h8, h9, h10, h11⟩ := ih
      { s with
        pobj := Function.update s.pobj p
          { s.pobj p with
            growthSpeed :=
              if p ∈ s.expandedCenters then normalGrowthSpeed else slowGrowthSpeed } }
    simp only [reassignSpeeds]
    refine ⟨h1, h2, h3, h4, h5, h6, h7, h8, h9, ?_, ?_⟩
    · intro q
      have h := h10 q
      by_cases hq : q = p
      · subst hq
        simpa using h
      · simpa [Function.update_noteq hq] using h
    · intro q hq
      rw [List.mem_cons, not_or] at hq
      rw [h11 q hq.2]
      exact Function.update_noteq hq.1 _ _

/-- With no far-enough candidate the call changes nothing and has consumed 200 draws. -/
lemma findEmptySpotAndExpand_none (s : State) (r : Rand)
    (h : ∀ k, k < 100 → isFarEnough s (candidate s r k).1 (candidate s r k).2 = false) :
    findEmptySpotAndExpand s r = .ok (s, r.drop 200) := by
  simp only [findEmptySpotAndExpand, findEmptySpot_none s 100 r h]

/-- With a first far-enough candidate the call runs the expansion to that candidate. -/
lemma findEmptySpotAndExpand_first (s : State) (r : Rand) (k : ℕ) (hk : k < 100)
    (hfar : isFarEnough s (candidate s r k).1 (candidate s r k).2 = true)
    (hbefore : ∀ j, j < k → isFarEnough s (candidate s r j).1 (candidate s r j).2 = false) :
    findEmptySpotAndExpand s r
      = expandToSpot s (candidate s r k) (r.drop (2 * (k + 1))) := by
  simp only [findEmptySpotAndExpand, findEmptySpot_first s 100 r k hk hfar hbefore]

/-- The expansion to an accepted spot allocates exactly one particle, at the spot. -/
lemma expandToSpot_new_particle (s s' : State) (spot : ℝ × ℝ) (r r' : Rand)
    (h : expandToSpot s spot r = .ok (s', r')) :
    s'.pnext = s.pnext + 1 ∧ (s'.pobj s.pnext).x = spot.1 ∧ (s'.pobj s.pnext).y = spot.2 := by
  unfold expandToSpot at h
  split at h
  · cases h
  · injection h with h
    injection h with h1 h2
    subst h1
    refine ⟨?_, ?_, ?_⟩
    · rw [(reassignSpeeds_frame _ _).1]
      rfl
    · rw [((reassignSpeeds_frame _ _).2.2.2.2.2.2.2.2.2.1 s.pnext).1]
      simp [State.allocParticle, State.allocLine, Particle.new]
    · rw [((reassignSpeeds_frame _ _).2.2.2.2.2.2.2.2.2.1 s.pnext).2.1]
      simp [State.allocParticle, State.allocLine, Particle.new]

/-! ## `addParticles` -/

lemma activeOf_congr (s t : State) (ps : List ℕ)
    (h : ∀ p ∈ ps, t.pobj p = s.pobj p) : activeOf t ps = activeOf s ps := by
  unfold activeOf
  apply List.filter_congr
  intro p hp
  rw [h p hp]

/-- The `forEach` loop of `addParticles()` over allocated particles: one new line per
active particle, in order, and nothing else. -/
lemma addParticlesLoop_spec (ps : List ℕ) : ∀ (s : State) (r : Rand),
    (∀ p ∈ ps, p < s.pnext) →
    (addParticlesLoop ps s r).2 = r.drop (4 * (activeOf s ps).length) ∧
    (addParticlesLoop ps s r).1.pnext = s.pnext + (activeOf s ps).length ∧
    (addParticlesLoop ps s r).1.lnext = s.lnext + (activeOf s ps).length ∧
    (addParticlesLoop ps s r).1.particles = s.particles ∧
    (addParticlesLoop ps s r).1.lines
      = s.lines ++ List.range' s.lnext (activeOf s ps).length ∧
    (addParticlesLoop ps s r).1.expandedCenters = s.expandedCenters ∧
    (addParticlesLoop ps s r).1.refreshTimeout = s.refreshTimeout ∧
    (addParticlesLoop ps s r).1.timers = s.timers ∧
    (addParticlesLoop ps s r).1.tnext = s.tnext ∧
    (addParticlesLoop ps s r).1.width = s.width ∧
    (addParticlesLoop ps s r).1.height = s.height ∧
    (∀ q, q < s.pnext → (addParticlesLoop ps s r).1.pobj q = s.pobj q) ∧
    (∀ l, l < s.lnext → (addParticlesLoop ps s r).1.lobj l = s.lobj l) ∧
    (∀ i p, (activeOf s ps)[i]? = some p →
      (addParticlesLoop ps s r).1.lobj (s.lnext + i) =
        { start := p, endP := s.pnext + i, currentX := (s.pobj p).x,
          currentY := (s.pobj p).y, growthSpeed := (s.pobj p).growthSpeed,
          complete := false }) := by
  induction ps with
  | nil =>
    intro s r _
    refine ⟨rfl, rfl, rfl, rfl, by simp [addParticlesLoop, activeOf], rfl, rfl, rfl, rfl,
      rfl, rfl, fun _ _ => rfl, fun _ _ => rfl, ?_⟩
    intro i p h
    simp [activeOf] at h
  | cons p ps ih =>
    intro s r hps
    have hp : p < s.pnext := hps p (List.mem_cons_self _ _)
    have hps' : ∀ q ∈ ps, q < s.pnext := fun q hq => hps q (List.mem_cons_of_mem _ hq)
    by_cases hact : (s.pobj p).active = true
    · obtain ⟨a1, a2, a3, a4, a5, a6, a7, a8, a9, a10, a11, a12, a13⟩ :=
        expandFromParticle_frame p 1 s r
      have a14 := (expandFromParticle_objects p 1 s r hp 0 (by omega)).1
      obtain ⟨b1, b2, b3, b4, b5, b6, b7, b8, b9, b10, b11, b12, b13, b14⟩ :=
        ih (expandFromParticle p 1 s r).1 (expandFromParticle p 1 s r).2
          (fun q hq => by rw [a2]; have := hps' q hq; omega)
      have hcongr : activeOf (expandFromParticle p 1 s r).1 ps = activeOf s ps :=
        activeOf_congr s _ ps (fun q hq => a12 q (hps' q hq))
      have hcons : activeOf s (p :: ps) = p :: activeOf s ps := by
        simp [activeOf, hact]
      rw [hcongr] at b1 b2 b3 b5 b14
      rw [a2] at b2 b12 b14
      rw [a3] at b3 b5 b13 b14
      simp only [addParticlesLoop, hact, if_true, hcons, List.length_cons]
      refine ⟨?_, by rw [b2]; omega, by rw [b3]; omega, by rw [b4, a4], ?_, by rw [b6, a6],
        by rw [b7, a7], by rw [b8, a8], by rw [b9, a9], by rw [b10, a10], by rw [b11, a11],
        ?_, ?_, ?_⟩
      · rw [b1, a1]; funext i; simp only [Rand.drop]; rfl
      · rw [b5, a5, List.append_assoc]
        rfl
      · intro q hq
        rw [b12 q (by omega), a12 q hq]
      · intro l hl
        rw [b13 l (by omega), a13 l hl]
      · intro i q hq
        cases i with
        | zero =>
          simp only [List.getElem?_cons_zero, Option.some.injEq] at hq
          subst hq
          rw [Nat.add_zero, b13 _ (by omega)]
          exact a14
        | succ i =>
          simp only [List.getElem?_cons_succ] at hq
          have h := b14 i q hq
          have hq' : q ∈ ps := by
            have := List.getElem?_mem hq
            exact (List.mem_filter.mp this).1
          rw [a12 q (hps' q hq')] at h
          have e1 : s.lnext + (i + 1) = s.lnext + 1 + i := by omega
          have e2 : s.pnext + (i + 1) = s.pnext + 1 + i := by omega
          rw [e1, e2]
          exact h
    · have hcons : activeOf s (p :: ps) = activeOf s ps := by
        simp [activeOf, hact]
      simp only [addParticlesLoop, hact, if_false, hcons]
      exact ih s r hps'

/-- The expansion to an accepted spot appends one line and keeps the particle
collection. -/
lemma expandToSpot_collections (s s' : State) (spot : ℝ × ℝ) (r r' : Rand)
    (h : expandToSpot s spot r = .ok (s', r')) :
    s'.particles = s.particles ∧ s'.lines = s.lines ++ [s.lnext] := by
  unfold expandToSpot at h
  split at h
  · cases h
  · injection h with h
    injection h with h1 h2
    subst h1
    refine ⟨?_, ?_⟩
    · rw [(reassignSpeeds_frame _ _).2.2.1]
      rfl
    · rw [(reassignSpeeds_frame _ _).2.2.2.1]
      rfl

lemma expandToSpot_ok (s : State) (spot : ℝ × ℝ) (r : Rand) (h : s.particles ≠ []) :
    ∃ s' r', expandToSpot s spot r = .ok (s', r') := by
  unfold expandToSpot
  split
  · rename_i heq
    exact absurd heq h
  · exact ⟨_, _, rfl⟩

/-- A call of `findEmptySpotAndExpand()` that returns has kept the particle collection and
appended at most one line. -/
lemma findEmptySpotAndExpand_collections (s s' : State) (r r' : Rand)
    (h : findEmptySpotAndExpand s r = .ok (s', r')) :
    s'.particles = s.particles ∧
    (s'.lines = s.lines ∨ s'.lines = s.lines ++ [s.lnext]) := by
  rcases first_candidate s r 100 with hnone | ⟨k, hk, hfar, hbefore⟩
  · rw [findEmptySpotAndExpand_none s r hnone] at h
    injection h with h
    injection h with h1 h2
    subst h1
    exact ⟨rfl, Or.inl rfl⟩
  · rw [findEmptySpotAndExpand_first s r k hk hfar hbefore] at h
    obtain ⟨h1, h2⟩ := expandToSpot_collections s s' _ _ _ h
    exact ⟨h1, Or.inr h2⟩

/-- With a non-empty particle collection `findEmptySpotAndExpand()` does not throw. -/
lemma findEmptySpotAndExpand_ok (s : State) (r : Rand) (h : s.particles ≠ []) :
    ∃ s' r', findEmptySpotAndExpand s r = .ok (s', r') := by
  rcases first_candidate s r 100 with hnone | ⟨k, hk, hfar, hbefore⟩
  · exact ⟨_, _, findEmptySpotAndExpand_none s r hnone⟩
  · rw [findEmptySpotAndExpand_first s r k hk hfar hbefore]
    exact expandToSpot_ok s _ _ h

/-- The particle allocated by the expansion to an accepted spot is the end of the line
allocated with it and carries the constructor's `active = true`. -/
lemma expandToSpot_new_active (s s' : State) (spot : ℝ × ℝ) (r r' : Rand)
    (h : expandToSpot s spot r = .ok (s', r')) :
    (s'.lobj s.lnext).endP = s.pnext ∧ (s'.lobj s.lnext).complete = false ∧
    (s'.pobj s.pnext).active = true := by
  unfold expandToSpot at h
  split at h
  · cases h
  · injection h with h
    injection h with h1 h2
    subst h1
    refine ⟨?_, ?_, ?_⟩
    · rw [(reassignSpeeds_frame _ _).2.2.2.2.2.2.2.2.1]
      simp [State.allocParticle, State.allocLine, Line.new]
    · rw [(reassignSpeeds_frame _ _).2.2.2.2.2.2.2.2.1]
      simp [State.allocParticle, State.allocLine, Line.new]
    · rw [((reassignSpeeds_frame _ _).2.2.2.2.2.2.2.2.2.1 s.pnext).2.2.2.2]
      simp [State.allocParticle, State.allocLine, Particle.new]

/-- No `grow()` call clears an `active` flag. -/
lemma grow_active_mono (s : State) (lid q : ℕ) (h : (s.pobj q).active = true) :
    ((Line.grow s lid).pobj q).active = true := by
  by_cases hc : (s.lobj lid).complete = true
  · rw [grow_of_complete s lid hc]; exact h
  · have hinc : (s.lobj lid).complete = false := by simpa using hc
    by_cases hnear : remaining s lid < (s.lobj lid).growthSpeed
    · rw [grow_near s lid hinc hnear]
      by_cases hq : q = (s.lobj lid).endP
      · subst hq
        rw [finish_pobj_end]
      · simp [Line.finish, Function.update_noteq hq, h]
    · rw [grow_far s lid hinc hnear]
      exact h

/-- The `reduce` of `findEmptySpotAndExpand` returns its initial value when nothing in
the array is strictly nearer, and otherwise the first array element of minimum distance,
which is then strictly nearer than the initial value. -/
lemma foldl_nearer (s : State) (spot : ℝ × ℝ) (ps : List ℕ) : ∀ init : ℕ,
    (ps.foldl (nearer s spot) init = init ∧ ∀ q ∈ ps, distTo s spot init ≤ distTo s spot q) ∨
    (∃ i : ℕ, ps[i]? = some (ps.foldl (nearer s spot) init) ∧
      distTo s spot (ps.foldl (nearer s spot) init) < distTo s spot init ∧
      (∀ (j q : ℕ), j < i → ps[j]? = some q →
        distTo s spot (ps.foldl (nearer s spot) init) < distTo s spot q) ∧
      ∀ q ∈ ps, distTo s spot (ps.foldl (nearer s spot) init) ≤ distTo s spot q) := by
  induction ps with
  | nil => intro init; left; exact ⟨rfl, fun q hq => absurd hq (List.not_mem_nil q)⟩
  | cons p ps ih =>
    intro init
    by_cases hlt : distTo s spot p < distTo s spot init
    · have hstep : nearer s spot init p = p := by
        unfold nearer; unfold distTo at hlt; rw [if_pos hlt]
      simp only [List.foldl_cons, hstep]
      right
      rcases ih p with ⟨h1, h2⟩ | ⟨i, h1, h2, h3, h4⟩
      · refine ⟨0, by rw [h1]; exact List.getElem?_cons_zero, by rw [h1]; exact hlt, fun j q hj _ => absurd hj (Nat.not_lt_zero j), ?_⟩
        intro q hq
        rw [h1]
        rcases List.mem_cons.mp hq with rfl | hq
        · exact le_refl _
        · exact h2 q hq
      · refine ⟨i + 1, by rw [List.getElem?_cons_succ]; exact h1, lt_trans h2 hlt, ?_, ?_⟩
        · intro j q hj hq
          cases j with
          | zero =>
            simp only [List.getElem?_cons_zero, Option.some.injEq] at hq
            subst hq
            exact h2
          | succ j =>
            rw [List.getElem?_cons_succ] at hq
            exact h3 j q (by omega) hq
        · intro q hq
          rcases List.mem_cons.mp hq with rfl | hq
          · exact le_of_lt h2
          · exact h4 q hq
    · have hstep : nearer s spot init p = init := by
        unfold nearer; unfold distTo at hlt; rw [if_neg hlt]
      simp only [List.foldl_cons, hstep]
      rcases ih init with ⟨h1, h2⟩ | ⟨i, h1, h2, h3, h4⟩
      · left
        refine ⟨h1, ?_⟩
        intro q hq
        rcases List.mem_cons.mp hq with rfl | hq
        · exact not_lt.mp hlt
        · exact h2 q hq
      · right
        refine ⟨i + 1, by rw [List.getElem?_cons_succ]; exact h1, h2, ?_, ?_⟩
        · intro j q hj hq
          cases j with
          | zero =>
            simp only [List.getElem?_cons_zero, Option.some.injEq] at hq
            subst hq
            exact lt_of_lt_of_le h2 (not_lt.mp hlt)
          | succ j =>
            rw [List.getElem?_cons_succ] at hq
            exact h3 j q (by omega) hq
        · intro q hq
          rcases List.mem_cons.mp hq with rfl | hq
          · exact le_trans (le_of_lt h2) (not_lt.mp hlt)
          · exact h4 q hq

/-- Started on the first array element, the `reduce` returns the first element of
minimum distance. -/
lemma foldl_nearer_head (s : State) (spot : ℝ × ℝ) (p0 : ℕ) (rest : List ℕ) :
    ∃ i : ℕ, (p0 :: rest)[i]? = some ((p0 :: rest).foldl (nearer s spot) p0) ∧
      (∀ (j q : ℕ), j < i → (p0 :: rest)[j]? = some q →
        distTo s spot ((p0 :: rest).foldl (nearer s spot) p0) < distTo s spot q) ∧
      ∀ q ∈ p0 :: rest,
        distTo s spot ((p0 :: rest).foldl (nearer s spot) p0) ≤ distTo s spot q := by
  rcases foldl_nearer s spot (p0 :: rest) p0 with ⟨h1, h2⟩ | ⟨i, h1, _, h3, h4⟩
  · refine ⟨0, by rw [h1]; exact List.getElem?_cons_zero, fun j q hj _ => absurd hj (Nat.not_lt_zero j), ?_⟩
    rw [h1]; exact h2
  · exact ⟨i, h1, h3, h4⟩

/-- The line allocated by the expansion to an accepted spot: the one line appended, from
the result of the `reduce` to the new particle. -/
lemma expandToSpot_line (s s' : State) (spot : ℝ × ℝ) (r r' : Rand)
    (h : expandToSpot s spot r = .ok (s', r')) :
    ∃ p0 rest, s.particles = p0 :: rest ∧
      (s'.lobj s.lnext).start = (p0 :: rest).foldl (nearer s spot) p0 := by
  unfold expandToSpot at h
  split at h
  · cases h
  · rename_i p0 rest heq
    injection h with h
    injection h with h1 h2
    subst h1
    refine ⟨p0, rest, heq, ?_⟩
    rw [(reassignSpeeds_frame _ _).2.2.2.2.2.2.2.2.1]
    simp [State.allocParticle, State.allocLine, Line.new, heq]

/-- In `demoState` with all draws equal to `1/2` the call accepts its first candidate,
`(400, 300)`, which is `500` away from the only live particle. -/
lemma demoState_accepts :
    ∃ s' r', findEmptySpotAndExpand demoState (fun _ => 1 / 2) = .ok (s', r') ∧
      s'.pnext ≠ demoState.pnext := by
  have hfar : isFarEnough demoState (candidate demoState (fun _ => 1 / 2) 0).1
      (candidate demoState (fun _ => 1 / 2) 0).2 = true := by
    rw [isFarEnough_iff]
    intro p hp
    have hp0 : p = 0 := by simpa [demoState] using hp
    subst hp0
    have e1 : (demoState.pobj 0).x - (candidate demoState (fun _ => 1 / 2) 0).1 = -400 := by
      simp only [demoState, candidate, State.initial]; norm_num
    have e2 : (demoState.pobj 0).y - (candidate demoState (fun _ => 1 / 2) 0).2 = -300 := by
      simp only [demoState, candidate, State.initial]; norm_num
    rw [e1, e2, hypot, show (-400 : ℝ) * -400 + -300 * -300 = 500 * 500 by norm_num,
      Real.sqrt_mul_self (by norm_num)]
    norm_num
  have h1 := findEmptySpotAndExpand_first demoState (fun _ => 1 / 2) 0 (by norm_num) hfar
    (fun j hj => absurd hj (Nat.not_lt_zero j))
  obtain ⟨s', r', h2⟩ : ∃ s' r', expandToSpot demoState
      (candidate demoState (fun _ => 1 / 2) 0) (Rand.drop (fun _ => 1 / 2) (2 * (0 + 1)))
      = .ok (s', r') := ⟨_, _, rfl⟩
  have hp := (expandToSpot_new_particle demoState s' _ _ r' h2).1
  exact ⟨s', r', h1.trans h2, by rw [hp]; exact Nat.succ_ne_self _⟩

/-- After the reassignment every particle of the traversed array has the normal speed if
it is an expanded center and the slow speed otherwise. -/
lemma reassignSpeeds_speed (ps : List ℕ) : ∀ (s : State) (q : ℕ), q ∈ ps →
    ((reassignSpeeds ps s).pobj q).growthSpeed
      = if q ∈ s.expandedCenters then normalGrowthSpeed else slowGrowthSpeed := by
  induction ps with
  | nil => intro s q hq; exact absurd hq (List.not_mem_nil q)
  | cons p ps ih =>
    intro s q hq
    simp only [reassignSpeeds]
    by_cases hmem : q ∈ ps
    · exact ih _ q hmem
    · have hqp : q = p := by
        rcases List.mem_cons.mp hq with h | h
        · exact h
        · exact absurd h hmem
      subst hqp
      rw [(reassignSpeeds_frame ps _).2.2.2.2.2.2.2.2.2.2 q hmem]
      simp

/-- The expanded-centers set and the growth speeds after the expansion to an accepted
spot. -/
lemma expandToSpot_speeds (s s' : State) (spot : ℝ × ℝ) (r r' : Rand)
    (h : expandToSpot s spot r = .ok (s', r')) :
    s'.expandedCenters = setAdd s.expandedCenters s.pnext ∧
    ∀ q ∈ s'.particles, (s'.pobj q).growthSpeed
      = if q ∈ s'.expandedCenters then normalGrowthSpeed else slowGrowthSpeed := by
  unfold expandToSpot at h
  split at h
  · cases h
  · injection h with h
    injection h with h1 h2
    subst h1
    refine ⟨?_, ?_⟩
    · rw [(reassignSpeeds_frame _ _).2.2.2.2.1]
      rfl
    · intro q hq
      rw [(reassignSpeeds_frame _ _).2.2.1] at hq
      rw [(reassignSpeeds_frame _ _).2.2.2.2.1]
      exact reassignSpeeds_speed _ _ q hq

/-- No `grow()` call resets a `complete` flag. -/
lemma grow_complete_mono (s : State) (lid l : ℕ) (h : (s.lobj l).complete = true) :
    ((Line.grow s lid).lobj l).complete = true := by
  by_cases hc : (s.lobj lid).complete = true
  · rw [grow_of_complete s lid hc]; exact h
  · have hinc : (s.lobj lid).complete = false := by simpa using hc
    have hne : l ≠ lid := by
      rintro rfl
      rw [h] at hinc
      cases hinc
    by_cases hnear : remaining s lid < (s.lobj lid).growthSpeed
    · rw [grow_near s lid hinc hnear]
      simp [Line.finish, Function.update_noteq hne, h]
    · rw [grow_far s lid hinc hnear]
      simp [Function.update_noteq hne, h]

/-- A `grow()` call changes neither the end points nor the growth speed of any line. -/
lemma grow_lobj_fields (s : State) (lid l : ℕ) :
    ((Line.grow s lid).lobj l).growthSpeed = (s.lobj l).growthSpeed ∧
    ((Line.grow s lid).lobj l).start = (s.lobj l).start ∧
    ((Line.grow s lid).lobj l).endP = (s.lobj l).endP := by
  by_cases hc : (s.lobj lid).complete = true
  · rw [grow_of_complete s lid hc]; exact ⟨rfl, rfl, rfl⟩
  · have hinc : (s.lobj lid).complete = false := by simpa using hc
    by_cases hnear : remaining s lid < (s.lobj lid).growthSpeed
    · rw [grow_near s lid hinc hnear]
      by_cases hl : l = lid
      · subst hl; simp [Line.finish]
      · simp [Line.finish, Function.update_noteq hl]
    · rw [grow_far s lid hinc hnear]
      by_cases hl : l = lid
      · subst hl; simp
      · simp [Function.update_noteq hl]

/-- The expansion to an accepted spot leaves the existing line objects alone. -/
lemma expandToSpot_lobj (s s' : State) (spot : ℝ × ℝ) (r r' : Rand)
    (h : expandToSpot s spot r = .ok (s', r')) :
    s'.lnext = s.lnext + 1 ∧ ∀ l, l < s.lnext → s'.lobj l = s.lobj l := by
  unfold expandToSpot at h
  split at h
  · cases h
  · injection h with h
    injection h with h1 h2
    subst h1
    refine ⟨?_, ?_⟩
    · rw [(reassignSpeeds_frame _ _).2.1]
      rfl
    · intro l hl
      rw [(reassignSpeeds_frame _ _).2.2.2.2.2.2.2.2.1]
      simp only [State.allocParticle, State.allocLine]
      exact Function.update_noteq (by omega) _ _

/-- A call of `findEmptySpotAndExpand()` leaves the existing line objects alone. -/
lemma findEmptySpotAndExpand_lobj (s s' : State) (r r' : Rand)
    (h : findEmptySpotAndExpand s r = .ok (s', r')) :
    s.lnext ≤ s'.lnext ∧ ∀ l, l < s.lnext → s'.lobj l = s.lobj l := by
  rcases first_candidate s r 100 with hnone | ⟨k, hk, hfar, hbefore⟩
  · rw [findEmptySpotAndExpand_none s r hnone] at h
    injection h with h
    injection h with h1 h2
    subst h1
    exact ⟨le_refl _, fun _ _ => rfl⟩
  · rw [findEmptySpotAndExpand_first s r k hk hfar hbefore] at h
    obtain ⟨h1, h2⟩ := expandToSpot_lobj s s' _ _ _ h
    exact ⟨by omega, h2⟩

/-- A call of `addParticles()` leaves the existing line objects alone. -/
lemma addParticles_lobj (s s' : State) (r r' : Rand)
    (hwf : ∀ p ∈ s.particles, p < s.pnext)
    (h : addParticles s r = .ok (s', r')) :
    s.lnext ≤ s'.lnext ∧ ∀ l, l < s.lnext → s'.lobj l = s.lobj l := by
  obtain ⟨-, -, b3, -, -, -, -, -, -, -, -, -, b13, -⟩ :=
    addParticlesLoop_spec s.particles s r hwf
  simp only [addParticles] at h
  split at h
  · obtain ⟨h1, h2⟩ := findEmptySpotAndExpand_lobj _ s' _ r' h
    refine ⟨by omega, ?_⟩
    intro l hl
    rw [h2 l (by omega), b13 l hl]
  · injection h with h
    have h1 : s' = (addParticlesLoop s.particles s r).1 := by rw [h]
    subst h1
    exact ⟨by omega, b13⟩

/-- The line allocated by the expansion to an accepted spot starts at a particle of the
live collection and copies the growth speed that particle had before the call. -/
lemma expandToSpot_line_speed (s s' : State) (spot : ℝ × ℝ) (r r' : Rand)
    (hwf : ∀ p ∈ s.particles, p < s.pnext)
    (h : expandToSpot s spot r = .ok (s', r')) :
    (s'.lobj s.lnext).start ∈ s.particles ∧
    (s'.lobj s.lnext).growthSpeed = (s.pobj (s'.lobj s.lnext).start).growthSpeed := by
  obtain ⟨p0, rest, hps, hstart⟩ := expandToSpot_line s s' spot r r' h
  obtain ⟨i, hi, -, -⟩ := foldl_nearer_head s spot p0 rest
  have hmem : (s'.lobj s.lnext).start ∈ s.particles := by
    rw [hstart, hps]
    exact List.getElem?_mem hi
  refine ⟨hmem, ?_⟩
  have hlt := hwf _ hmem
  unfold expandToSpot at h
  split at h
  · cases h
  · injection h with h
    injection h with h1 h2
    subst h1
    rw [(reassignSpeeds_frame _ _).2.2.2.2.2.2.2.2.1] at hlt ⊢
    simp only [State.allocParticle, State.allocLine, Line.new, Function.update_same] at hlt ⊢
    rw [Function.update_noteq (Nat.ne_of_lt hlt)]

lemma Rand.Valid.drop {r : Rand} (h : r.Valid) (k : ℕ) : (r.drop k).Valid :=
  fun i => h (i + k)

lemma checkRefresh_of_none (s : State) (h : s.refreshTimeout = none) :
    TimerArmed s (checkRefresh s) := by
  simp [TimerArmed, checkRefresh, h]

lemma checkRefresh_of_some (s : State) (k : ℕ) (h : s.refreshTimeout = some k) :
    checkRefresh s = s := by
  simp [checkRefresh, h]

lemma checkRefresh_timer (s : State) :
    TimerKept s (checkRefresh s) ∨ TimerArmed s (checkRefresh s) := by
  cases h : s.refreshTimeout with
  | none => exact Or.inr (checkRefresh_of_none s h)
  | some k => rw [checkRefresh_of_some s k h]; exact Or.inl ⟨rfl, rfl, rfl⟩

lemma grow_timer (s : State) (lid : ℕ) :
    TimerKept s (Line.grow s lid) ∨ TimerArmed s (Line.grow s lid) := by
  by_cases hc : (s.lobj lid).complete = true
  · rw [grow_of_complete s lid hc]; exact Or.inl ⟨rfl, rfl, rfl⟩
  · have hinc : (s.lobj lid).complete = false := by simpa using hc
    by_cases hnear : remaining s lid < (s.lobj lid).growthSpeed
    · rw [grow_near s lid hinc hnear]
      exact checkRefresh_timer _
    · rw [grow_far s lid hinc hnear]
      exact Or.inl ⟨rfl, rfl, rfl⟩

/-- The `forEach` loop of `addParticles()` touches neither the particle collection, nor
the expanded-centers set, nor the timer. -/
lemma addParticlesLoop_globals (ps : List ℕ) : ∀ (s : State) (r : Rand),
    (addParticlesLoop ps s r).1.particles = s.particles ∧
    (addParticlesLoop ps s r).1.expandedCenters = s.expandedCenters ∧
    (addParticlesLoop ps s r).1.refreshTimeout = s.refreshTimeout ∧
    (addParticlesLoop ps s r).1.timers = s.timers ∧
    (addParticlesLoop ps s r).1.tnext = s.tnext := by
  induction ps with
  | nil => intro s r; exact ⟨rfl, rfl, rfl, rfl, rfl⟩
  | cons p ps ih =>
    intro s r
    by_cases hact : (s.pobj p).active = true
    · obtain ⟨-, -, -, a4, -, a6, a7, a8, a9, -, -, -, -⟩ := expandFromParticle_frame p 1 s r
      obtain ⟨b1, b2, b3, b4, b5⟩ :=
        ih (expandFromParticle p 1 s r).1 (expandFromParticle p 1 s r).2
      simp only [addParticlesLoop, hact, if_true]
      exact ⟨by rw [b1, a4], by rw [b2, a6], by rw [b3, a7], by rw [b4, a8], by rw [b5, a9]⟩
    · simp only [addParticlesLoop, hact, if_false]
      exact ih s r

lemma expandToSpot_timer (s s' : State) (spot : ℝ × ℝ) (r r' : Rand)
    (h : expandToSpot s spot r = .ok (s', r')) : TimerKept s s' := by
  unfold expandToSpot at h
  split at h
  · cases h
  · injection h with h
    injection h with h1 h2
    subst h1
    refine ⟨?_, ?_, ?_⟩
    · rw [(reassignSpeeds_frame _ _).2.2.2.2.2.1]; rfl
    · rw [(reassignSpeeds_frame _ _).2.2.2.2.2.2.1]; rfl
    · rw [(reassignSpeeds_frame _ _).2.2.2.2.2.2.2.1]; rfl

lemma findEmptySpotAndExpand_timer (s s' : State) (r r' : Rand)
    (h : findEmptySpotAndExpand s r = .ok (s', r')) : TimerKept s s' := by
  rcases first_candidate s r 100 with hnone | ⟨k, hk, hfar, hbefore⟩
  · rw [findEmptySpotAndExpand_none s r hnone] at h
    injection h with h
    injection h with h1 h2
    subst h1
    exact ⟨rfl, rfl, rfl⟩
  · rw [findEmptySpotAndExpand_first s r k hk hfar hbefore] at h
    exact expandToSpot_timer s s' _ _ _ h

lemma addParticles_timer (s s' : State) (r r' : Rand)
    (h : addParticles s r = .ok (s', r')) : TimerKept s s' := by
  obtain ⟨-, -, b3, b4, b5⟩ := addParticlesLoop_globals s.particles s r
  simp only [addParticles] at h
  split at h
  · obtain ⟨c1, c2, c3⟩ := findEmptySpotAndExpand_timer _ s' _ r' h
    exact ⟨by rw [c1, b3], by rw [c2, b4], by rw [c3, b5]⟩
  · injection h with h
    have h1 : s' = (addParticlesLoop s.particles s r).1 := by rw [h]
    subst h1
    exact ⟨b3, b4, b5⟩

/-- Every step either leaves the timer alone or arms it from the empty handle. -/
lemma step_timer (s s' : State) (h : Step s s') : TimerKept s s' ∨ TimerArmed s s' := by
  cases h with
  | grow lid _ => exact grow_timer s lid
  | add _ r r' h => exact Or.inl (addParticles_timer s s' r r' h)
  | relief _ r r' h => exact Or.inl (findEmptySpotAndExpand_timer s s' r r' h)
  | refresh => exact checkRefresh_timer s

/-- Any number of steps schedules at most one timeout. -/
lemma steps_timer (s s' : State) (h : Relation.ReflTransGen Step s s') :
    TimerKept s s' ∨
      (s'.refreshTimeout = some s.tnext ∧ s'.timers = s.timers ++ [(s.tnext, 45000)]) := by
  induction h with
  | refl => exact Or.inl ⟨rfl, rfl, rfl⟩
  | tail _ hstep ih =>
    rcases ih with ⟨k1, k2, k3⟩ | ⟨k1, k2⟩
    · rcases step_timer _ _ hstep with ⟨g1, g2, g3⟩ | ⟨g1, g2, g3, g4⟩
      · exact Or.inl ⟨by rw [g1, k1], by rw [g2, k2], by rw [g3, k3]⟩
      · exact Or.inr ⟨by rw [g2, k3], by rw [g3, k2, k3]⟩
    · rcases step_timer _ _ hstep with ⟨g1, g2, g3⟩ | ⟨g1, g2, g3, g4⟩
      · exact Or.inr ⟨by rw [g1, k1], by rw [g2, k2]⟩
      · rw [k1] at g1; cases g1

lemma clearTimeout_timers_congr (s t : State) (h1 : t.refreshTimeout = s.refreshTimeout)
    (h2 : t.timers = s.timers) :
    (clearTimeout t t.refreshTimeout).timers = (clearTimeout s s.refreshTimeout).timers := by
  rw [h1]
  cases s.refreshTimeout with
  | none => exact h2
  | some k => simp only [clearTimeout, h2]

/-- After `resetSimulation()` the handle is empty and the pending timeouts are those left
by `clearTimeout(refreshTimeout)`. -/
lemma resetSimulation_timer (s : State) (r : Rand) :
    (resetSimulation s r).1.refreshTimeout = none ∧
    (resetSimulation s r).1.timers = (clearTimeout s s.refreshTimeout).timers := by
  obtain ⟨-, -, -, -, -, b6, b7, -, -, -, -, -, -, -⟩ :=
    initializeLoop_spec 3
      { s with particles := [], lines := [], expandedCenters := [] } r
  dsimp only at b6 b7
  exact ⟨rfl, clearTimeout_timers_congr s _ b6 b7⟩

/-- In a reachable state the pending timeouts are exactly the one named by the handle, if
any. -/
lemma reachable_timer (s : State) (h : Reachable s) :
    (s.refreshTimeout = none ∧ s.timers = []) ∨
      ∃ k, s.refreshTimeout = some k ∧ s.timers = [(k, 45000)] := by
  have hreset : ∀ (t : State) (r : Rand),
      ((t.refreshTimeout = none ∧ t.timers = []) ∨
        ∃ k, t.refreshTimeout = some k ∧ t.timers = [(k, 45000)]) →
      (resetSimulation t r).1.refreshTimeout = none ∧ (resetSimulation t r).1.timers = [] := by
    intro t r ht
    obtain ⟨h1, h2⟩ := resetSimulation_timer t r
    refine ⟨h1, ?_⟩
    rw [h2]
    rcases ht with ⟨t1, t2⟩ | ⟨k, t1, t2⟩
    · rw [t1]; exact t2
    · rw [t1]; simp [clearTimeout, t2]
  induction h with
  | init width height r =>
    obtain ⟨-, -, -, -, -, b6, b7, -, -, -, -, -, -, -⟩ :=
      initializeLoop_spec 3 (State.initial width height) r
    exact Or.inl ⟨by rw [initializeCenters, b6]; rfl, by rw [initializeCenters, b7]; rfl⟩
  | step s s' _ hstep ih =>
    rcases step_timer s s' hstep with ⟨g1, g2, -⟩ | ⟨g1, g2, g3, -⟩
    · rw [g1, g2]; exact ih
    · rcases ih with ⟨-, t2⟩ | ⟨k, t1, -⟩
      · exact Or.inr ⟨s.tnext, g2, by rw [g3, t2]; rfl⟩
      · rw [t1] at g1; cases g1
  | reset s r _ ih => exact Or.inl (hreset s r ih)
  | resize s width height r _ ih =>
    exact Or.inl (hreset _ r ih)

/-- The invariant only reads the collections, the allocation counters, and the end,
completion flag and growth speed of the objects. -/
lemma Inv.transfer {s s' : State} (h : Inv s)
    (hP : s'.particles = s.particles) (hL : s'.lines = s.lines)
    (hpn : s'.pnext = s.pnext) (hln : s'.lnext = s.lnext)
    (he : ∀ l, (s'.lobj l).endP = (s.lobj l).endP)
    (hc : ∀ l, (s'.lobj l).complete = (s.lobj l).complete)
    (hv : ∀ l, (s'.lobj l).growthSpeed = (s.lobj l).growthSpeed)
    (hq : ∀ q, (s'.pobj q).growthSpeed = (s.pobj q).growthSpeed) : Inv s' where
  nodup := by rw [hP]; exact h.nodup
  live := by rw [hP, hpn]; exact h.live
  line := by
    intro l hl
    rw [hL] at hl
    rw [hln, hpn, he, hc, hP]
    exact h.line l hl
  ends := by
    intro l hl l' hl'
    rw [hL] at hl hl'
    rw [he, he]
    exact h.ends l hl l' hl'
  pspeed := by
    intro q hq'
    rw [hpn] at hq'
    rw [hq]
    exact h.pspeed q hq'
  lspeed := by
    intro l hl
    rw [hln] at hl
    rw [hv]
    exact h.lspeed l hl

/-- The invariant survives the allocation of one incomplete line that ends in a freshly
allocated particle, whatever happens to the growth speeds of the particles as long as
they stay among the two. -/
lemma Inv.add_line {s s' : State} (h : Inv s)
    (hP : s'.particles = s.particles) (hL : s'.lines = s.lines ++ [s.lnext])
    (hpn : s'.pnext = s.pnext + 1) (hln : s'.lnext = s.lnext + 1)
    (hold : ∀ l, l < s.lnext → s'.lobj l = s.lobj l)
    (he : (s'.lobj s.lnext).endP = s.pnext)
    (hc : (s'.lobj s.lnext).complete = false)
    (hv : SpeedOK (s'.lobj s.lnext).growthSpeed)
    (hq : ∀ q, q < s.pnext + 1 → SpeedOK (s'.pobj q).growthSpeed) : Inv s' where
  nodup := by rw [hP]; exact h.nodup
  live := by
    intro p hp
    rw [hP] at hp
    rw [hpn]
    exact Nat.lt_succ_of_lt (h.live p hp)
  line := by
    intro l hl
    rw [hL, List.mem_append, List.mem_singleton] at hl
    rw [hln, hpn, hP]
    rcases hl with hl | rfl
    · obtain ⟨h1, h2, h3⟩ := h.line l hl
      rw [hold l h1]
      exact ⟨by omega, by omega, h3⟩
    · refine ⟨by omega, by rw [he]; omega, ?_⟩
      rw [he, hc]
      constructor
      · intro hm
        exact absurd (h.live _ hm) (lt_irrefl _)
      · intro hf
        cases hf
  ends := by
    intro l hl l' hl'
    rw [hL, List.mem_append, List.mem_singleton] at hl hl'
    rcases hl with hl | rfl <;> rcases hl' with hl' | rfl
    · rw [hold l (h.line l hl).1, hold l' (h.line l' hl').1]
      exact h.ends l hl l' hl'
    · rw [hold l (h.line l hl).1, he]
      intro heq
      have := (h.line l hl).2.1
      omega
    · rw [hold l' (h.line l' hl').1, he]
      intro heq
      have := (h.line l' hl').2.1
      omega
    · intro _; rfl
  pspeed := by
    intro q hq'
    rw [hpn] at hq'
    exact hq q hq'
  lspeed := by
    intro l hl
    rw [hln] at hl
    by_cases hlt : l < s.lnext
    · rw [hold l hlt]
      exact h.lspeed l hlt
    · have : l = s.lnext := by omega
      subst this
      exact hv

/-- One iteration of `expandFromParticle` from an allocated particle keeps the
invariant. -/
lemma inv_expandStep {s : State} (h : Inv s) (p : ℕ) (r : Rand) (hp : p < s.pnext) :
    Inv (expandStep p s r) := by
  obtain ⟨-, a2, a3, a4, a5, -, -, -, -, -, -, a12, a13⟩ := expandFromParticle_frame p 1 s r
  obtain ⟨b1, b2⟩ := expandFromParticle_objects p 1 s r hp 0 (by omega)
  have e : (expandFromParticle p 1 s r).1 = expandStep p s r := rfl
  rw [e] at a2 a3 a4 a5 a12 a13 b1 b2
  simp only [Nat.add_zero] at b1 b2
  refine h.add_line a4 (by rw [a5]; rfl) a2 a3 a13 (by rw [b1]) (by rw [b1]) ?_ ?_
  · rw [b1]; exact h.pspeed p hp
  · intro q hq
    by_cases hlt : q < s.pnext
    · rw [a12 q hlt]; exact h.pspeed q hlt
    · have : q = s.pnext := by omega
      subst this
      rw [b2]
      exact h.pspeed p hp

/-- `expandFromParticle` from an allocated particle keeps the invariant. -/
lemma inv_expandFromParticle (p : ℕ) (n : ℕ) : ∀ {s : State} (r : Rand),
    Inv s → p < s.pnext → Inv (expandFromParticle p n s r).1 := by
  induction n with
  | zero => intro s r h _; exact h
  | succ n ih =>
    intro s r h hp
    simp only [expandFromParticle]
    exact ih (r.drop 4) (inv_expandStep h p r hp) (Nat.lt_succ_of_lt hp)

/-- The `forEach` loop of `addParticles()` over allocated particles keeps the
invariant. -/
lemma inv_addParticlesLoop (ps : List ℕ) : ∀ {s : State} (r : Rand),
    Inv s → (∀ p ∈ ps, p < s.pnext) → Inv (addParticlesLoop ps s r).1 := by
  induction ps with
  | nil => intro s r h _; exact h
  | cons p ps ih =>
    intro s r h hps
    have hp : p < s.pnext := hps p (List.mem_cons_self _ _)
    by_cases hact : (s.pobj p).active = true
    · simp only [addParticlesLoop, hact, if_true]
      refine ih _ (inv_expandFromParticle p 1 r h hp) ?_
      intro q hq
      have := hps q (List.mem_cons_of_mem _ hq)
      rw [(expandFromParticle_frame p 1 s r).2.1]
      omega
    · simp only [addParticlesLoop, hact, if_false]
      exact ih r h (fun q hq => hps q (List.mem_cons_of_mem _ hq))

/-- One iteration of `initializeCenters()` keeps the invariant. -/
lemma inv_initializeStep {s : State} (h : Inv s) (r : Rand) :
    Inv (initializeStep s r).1 := by
  have h2 : Inv { s.allocParticle
        (Particle.new (r 0 * s.width) (r 1 * s.height) normalGrowthSpeed (r.drop 2)) with
      particles := s.particles ++ [s.pnext] } :=
    { nodup := by
        show (s.particles ++ [s.pnext]).Nodup
        rw [List.nodup_append]
        refine ⟨h.nodup, List.nodup_singleton _, ?_⟩
        intro a ha hb
        rw [List.mem_singleton] at hb
        subst hb
        exact absurd (h.live _ ha) (lt_irrefl _)
      live := by
        intro p hp
        show p < s.pnext + 1
        have hp' : p ∈ s.particles ++ [s.pnext] := hp
        rw [List.mem_append, List.mem_singleton] at hp'
        rcases hp' with hp' | rfl
        · exact Nat.lt_succ_of_lt (h.live p hp')
        · exact Nat.lt_succ_self _
      line := by
        intro l hl
        obtain ⟨h1, h3, h4⟩ := h.line l hl
        refine ⟨h1, Nat.lt_succ_of_lt h3, ?_⟩
        show (s.lobj l).endP ∈ s.particles ++ [s.pnext] ↔ _
        rw [List.mem_append, List.mem_singleton]
        constructor
        · rintro (hm | hm)
          · exact h4.mp hm
          · omega
        · intro hc
          exact Or.inl (h4.mpr hc)
      ends := h.ends
      pspeed := by
        intro q hq
        have hq' : q < s.pnext + 1 := hq
        show SpeedOK ((Function.update s.pobj s.pnext _) q).growthSpeed
        by_cases hlt : q < s.pnext
        · rw [Function.update_noteq (Nat.ne_of_lt hlt)]
          exact h.pspeed q hlt
        · have : q = s.pnext := by omega
          subst this
          rw [Function.update_same]
          exact Or.inl rfl
      lspeed := h.lspeed }
  exact inv_expandFromParticle s.pnext 3 (r.drop 4) h2 (Nat.lt_succ_self _)

/-- The loop of `initializeCenters()` keeps the invariant. -/
lemma inv_initializeLoop (n : ℕ) : ∀ {s : State} (r : Rand),
    Inv s → Inv (initializeLoop n s r).1 := by
  induction n with
  | zero => intro s r h; exact h
  | succ n ih =>
    intro s r h
    simp only [initializeLoop]
    exact ih _ (inv_initializeStep h r)

/-- The initial state satisfies the invariant. -/
lemma inv_initial (width height : ℝ) : Inv (State.initial width height) where
  nodup := List.nodup_nil
  live := fun p hp => absurd hp (List.not_mem_nil p)
  line := fun l hl => absurd hl (List.not_mem_nil l)
  ends := fun l hl => absurd hl (List.not_mem_nil l)
  pspeed := fun q hq => absurd hq (Nat.not_lt_zero q)
  lspeed := fun l hl => absurd hl (Nat.not_lt_zero l)

/-- `resetSimulation()` keeps the invariant, also after the `resize` listener changed the
viewport. -/
lemma inv_resetSimulation {s : State} (h : Inv s) (width height : ℝ) (r : Rand) :
    Inv (resetSimulation { s with width := width, height := height } r).1 := by
  have h0 : Inv
      { ({ s with width := width, height := height } : State) with
        particles := []
        lines := []
        expandedCenters := [] } :=
    { nodup := List.nodup_nil
      live := fun p hp => absurd hp (List.not_mem_nil p)
      line := fun l hl => absurd hl (List.not_mem_nil l)
      ends := fun l hl => absurd hl (List.not_mem_nil l)
      pspeed := h.pspeed
      lspeed := h.lspeed }
  have h1 := inv_initializeLoop 3 r h0
  refine h1.transfer ?_ ?_ ?_ ?_ ?_ ?_ ?_ ?_
  · simp only [resetSimulation, initializeCenters, clearTimeout_particles]
  · simp only [resetSimulation, initializeCenters, clearTimeout_lines]
  · simp only [resetSimulation, initializeCenters]
    cases (initializeLoop 3 _ r).1.refreshTimeout <;> rfl
  · simp only [resetSimulation, initializeCenters]
    cases (initializeLoop 3 _ r).1.refreshTimeout <;> rfl
  · intro l; simp only [resetSimulation, initializeCenters, clearTimeout_lobj]
  · intro l; simp only [resetSimulation, initializeCenters, clearTimeout_lobj]
  · intro l; simp only [resetSimulation, initializeCenters, clearTimeout_lobj]
  · intro q; simp only [resetSimulation, initializeCenters, clearTimeout_pobj]

/-- `checkRefresh()` keeps the invariant. -/
lemma inv_checkRefresh {s : State} (h : Inv s) : Inv (checkRefresh s) :=
  h.transfer (checkRefresh_particles s) (checkRefresh_lines s) (checkRefresh_pnext s)
    (checkRefresh_lnext s) (fun l => by rw [checkRefresh_lobj])
    (fun l => by rw [checkRefresh_lobj]) (fun l => by rw [checkRefresh_lobj])
    (fun q => by rw [checkRefresh_pobj])

/-- A `grow()` call on a live line keeps the invariant. -/
lemma inv_grow {s : State} (h : Inv s) (lid : ℕ) (hlid : lid ∈ s.lines) :
    Inv (Line.grow s lid) := by
  by_cases hc : (s.lobj lid).complete = true
  · rw [grow_of_complete s lid hc]; exact h
  · have hinc : (s.lobj lid).complete = false := by simpa using hc
    have hfield := grow_lobj_fields s lid
    by_cases hnear : remaining s lid < (s.lobj lid).growthSpeed
    · have hP : (Line.grow s lid).particles = s.particles ++ [(s.lobj lid).endP] := by
        rw [grow_near s lid hinc hnear]; exact finish_particles s lid
      have hL : (Line.grow s lid).lines = s.lines := by
        rw [grow_near s lid hinc hnear]; simp [Line.finish]
      have hpn : (Line.grow s lid).pnext = s.pnext := by
        rw [grow_near s lid hinc hnear]; simp [Line.finish]
      have hln : (Line.grow s lid).lnext = s.lnext := by
        rw [grow_near s lid hinc hnear]; simp [Line.finish]
      have hcl : ((Line.grow s lid).lobj lid).complete = true := by
        rw [grow_near s lid hinc hnear, finish_lobj]
      have hco : ∀ l, l ≠ lid → ((Line.grow s lid).lobj l).complete = (s.lobj l).complete := by
        intro l hl
        rw [grow_near s lid hinc hnear]
        simp [Line.finish, Function.update_noteq hl]
      have hq : ∀ q, ((Line.grow s lid).pobj q).growthSpeed = (s.pobj q).growthSpeed := by
        intro q
        rw [grow_near s lid hinc hnear]
        by_cases hqe : q = (s.lobj lid).endP
        · subst hqe; rw [finish_pobj_end]
        · simp [Line.finish, Function.update_noteq hqe]
      obtain ⟨k1, k2, k3⟩ := h.line lid hlid
      have hfresh : (s.lobj lid).endP ∉ s.particles := by
        intro hm
        have := k3.mp hm
        rw [hinc] at this
        cases this
      exact
        { nodup := by
            rw [hP, List.nodup_append]
            refine ⟨h.nodup, List.nodup_singleton _, ?_⟩
            intro a ha hb
            rw [List.mem_singleton] at hb
            subst hb
            exact hfresh ha
          live := by
            intro p hp
            rw [hP, List.mem_append, List.mem_singleton] at hp
            rw [hpn]
            rcases hp with hp | rfl
            · exact h.live p hp
            · exact k2
          line := by
            intro l hl
            rw [hL] at hl
            obtain ⟨g1, g2, g3⟩ := h.line l hl
            rw [hln, hpn, (hfield l).2.2, hP, List.mem_append, List.mem_singleton]
            refine ⟨g1, g2, ?_⟩
            by_cases hll : l = lid
            · subst hll
              rw [hcl]
              exact ⟨fun _ => rfl, fun _ => Or.inr rfl⟩
            · rw [hco l hll, ← g3]
              constructor
              · rintro (hm | hm)
                · exact hm
                · exact absurd (h.ends l hl lid hlid hm) hll
              · exact Or.inl
          ends := by
            intro l hl l' hl'
            rw [hL] at hl hl'
            rw [(hfield l).2.2, (hfield l').2.2]
            exact h.ends l hl l' hl'
          pspeed := by
            intro q hq'
            rw [hpn] at hq'
            rw [hq]
            exact h.pspeed q hq'
          lspeed := by
            intro l hl
            rw [hln] at hl
            rw [(hfield l).1]
            exact h.lspeed l hl }
    · refine h.transfer ?_ ?_ ?_ ?_ (fun l => (hfield l).2.2) ?_ (fun l => (hfield l).1) ?_
      · rw [grow_far s lid hinc hnear]
      · rw [grow_far s lid hinc hnear]
      · rw [grow_far s lid hinc hnear]
      · rw [grow_far s lid hinc hnear]
      · intro l
        rw [grow_far s lid hinc hnear]
        by_cases hl : l = lid
        · subst hl; simp
        · simp [Function.update_noteq hl]
      · intro q
        rw [grow_far s lid hinc hnear]

/-- The speed reassignment keeps every growth speed among the two. -/
lemma reassignSpeeds_speedOK (ps : List ℕ) : ∀ (s : State) (q : ℕ),
    SpeedOK (s.pobj q).growthSpeed → SpeedOK ((reassignSpeeds ps s).pobj q).growthSpeed := by
  induction ps with
  | nil => intro s q h; exact h
  | cons p ps ih =>
    intro s q h
    simp only [reassignSpeeds]
    apply ih
    by_cases hq : q = p
    · subst hq
      simp only [Function.update_same]
      by_cases hm : q ∈ s.expandedCenters
      · rw [if_pos hm]; exact Or.inl rfl
      · rw [if_neg hm]; exact Or.inr rfl
    · simp only [Function.update_noteq hq]
      exact h

/-- After the expansion to an accepted spot every allocated particle, the new one
included, has one of the two growth speeds. -/
lemma expandToSpot_pspeed (s s' : State) (spot : ℝ × ℝ) (r r' : Rand)
    (hs : ∀ q, q < s.pnext → SpeedOK (s.pobj q).growthSpeed)
    (h : expandToSpot s spot r = .ok (s', r')) :
    ∀ q, q < s.pnext + 1 → SpeedOK (s'.pobj q).growthSpeed := by
  unfold expandToSpot at h
  split at h
  · cases h
  · injection h with h
    injection h with h1 h2
    subst h1
    intro q hq
    apply reassignSpeeds_speedOK
    simp only [State.allocParticle, State.allocLine]
    by_cases hlt : q < s.pnext
    · rw [Function.update_noteq (Nat.ne_of_lt hlt)]
      exact hs q hlt
    · have : q = s.pnext := by omega
      subst this
      rw [Function.update_same]
      exact Or.inl rfl

/-- A call of `findEmptySpotAndExpand()` that returns keeps the invariant. -/
lemma inv_findEmptySpotAndExpand {s s' : State} (h : Inv s) (r r' : Rand)
    (hok : findEmptySpotAndExpand s r = .ok (s', r')) : Inv s' := by
  rcases first_candidate s r 100 with hnone | ⟨k, hk, hfar, hbefore⟩
  · rw [findEmptySpotAndExpand_none s r hnone] at hok
    injection hok with hok
    injection hok with h1 h2
    subst h1
    exact h
  · rw [findEmptySpotAndExpand_first s r k hk hfar hbefore] at hok
    obtain ⟨a1, a2⟩ := expandToSpot_collections s s' _ _ _ hok
    obtain ⟨b1, -, -⟩ := expandToSpot_new_particle s s' _ _ _ hok
    obtain ⟨c1, c2⟩ := expandToSpot_lobj s s' _ _ _ hok
    obtain ⟨d1, d2, -⟩ := expandToSpot_new_active s s' _ _ _ hok
    obtain ⟨e1, e2⟩ := expandToSpot_line_speed s s' _ _ _ h.live hok
    refine h.add_line a1 a2 b1 c1 c2 d1 d2 ?_
      (expandToSpot_pspeed s s' _ _ _ h.pspeed hok)
    rw [e2]
    exact h.pspeed _ (h.live _ e1)

/-- A call of `addParticles()` that returns keeps the invariant. -/
lemma inv_addParticles {s s' : State} (h : Inv s) (r r' : Rand)
    (hok : addParticles s r = .ok (s', r')) : Inv s' := by
  have h1 := inv_addParticlesLoop s.particles r h h.live
  simp only [addParticles] at hok
  split at hok
  · exact inv_findEmptySpotAndExpand h1 _ r' hok
  · injection hok with hok
    have e : s' = (addParticlesLoop s.particles s r).1 := by rw [hok]
    subst e
    exact h1

/-- Every step keeps the invariant. -/
lemma inv_step {s s' : State} (h : Inv s) (hstep : Step s s') : Inv s' := by
  cases hstep with
  | grow lid hl => exact inv_grow h lid hl
  | add _ r r' hok => exact inv_addParticles h r r' hok
  | relief _ r r' hok => exact inv_findEmptySpotAndExpand h r r' hok
  | refresh => exact inv_checkRefresh h

/-- Every reachable state satisfies the invariant. -/
lemma reachable_inv {s : State} (h : Reachable s) : Inv s := by
  induction h with
  | init width height r => exact inv_initializeLoop 3 r (inv_initial width height)
  | step s s' _ hstep ih => exact inv_step ih hstep
  | reset s r _ ih => exact inv_resetSimulation ih s.width s.height r
  | resize s width height r _ ih => exact inv_resetSimulation ih width height r

/-- A `grow()` call moves no particle. -/
lemma grow_pobj_position (s : State) (lid q : ℕ) :
    ((Line.grow s lid).pobj q).x = (s.pobj q).x ∧
    ((Line.grow s lid).pobj q).y = (s.pobj q).y := by
  by_cases hc : (s.lobj lid).complete = true
  · rw [grow_of_complete s lid hc]; exact ⟨rfl, rfl⟩
  · have hinc : (s.lobj lid).complete = false := by simpa using hc
    by_cases hnear : remaining s lid < (s.lobj lid).growthSpeed
    · rw [grow_near s lid hinc hnear]
      by_cases hq : q = (s.lobj lid).endP
      · subst hq; rw [finish_pobj_end]; exact ⟨rfl, rfl⟩
      · simp [Line.finish, Function.update_noteq hq]
    · rw [grow_far s lid hinc hnear]; exact ⟨rfl, rfl⟩

/-- A `grow()` call on one line leaves the other line objects alone. -/
lemma grow_lobj_other (s : State) (lid l : ℕ) (hl : l ≠ lid) :
    (Line.grow s lid).lobj l = s.lobj l := by
  by_cases hc : (s.lobj lid).complete = true
  · rw [grow_of_complete s lid hc]
  · have hinc : (s.lobj lid).complete = false := by simpa using hc
    by_cases hnear : remaining s lid < (s.lobj lid).growthSpeed
    · rw [grow_near s lid hinc hnear]
      simp [Line.finish, Function.update_noteq hl]
    · rw [grow_far s lid hinc hnear]
      simp [Function.update_noteq hl]

lemma grow_lines (s : State) (lid : ℕ) : (Line.grow s lid).lines = s.lines := by
  by_cases hc : (s.lobj lid).complete = true
  · rw [grow_of_complete s lid hc]
  · have hinc : (s.lobj lid).complete = false := by simpa using hc
    by_cases hnear : remaining s lid < (s.lobj lid).growthSpeed
    · rw [grow_near s lid hinc hnear]; simp [Line.finish]
    · rw [grow_far s lid hinc hnear]

/-- The remaining distance of a line depends only on its object and on the position of
its end particle. -/
lemma remaining_congr (s t : State) (l : ℕ) (hl : t.lobj l = s.lobj l)
    (hx : (t.pobj (s.lobj l).endP).x = (s.pobj (s.lobj l).endP).x)
    (hy : (t.pobj (s.lobj l).endP).y = (s.pobj (s.lobj l).endP).y) :
    remaining t l = remaining s l := by
  unfold remaining
  rw [hl, hx, hy]

lemma within_congr {l : ℕ} {v : ℝ} {k : ℕ} {s t : State} (h : Within l v k s)
    (hl : t.lobj l = s.lobj l)
    (hx : (t.pobj (s.lobj l).endP).x = (s.pobj (s.lobj l).endP).x)
    (hy : (t.pobj (s.lobj l).endP).y = (s.pobj (s.lobj l).endP).y) :
    Within l v k t := by
  unfold Within
  rw [remaining_congr s t l hl hx hy, hl]
  exact h

/-- A `grow()` call on the line itself brings it one step closer; a `grow()` call on
another line does not set it back. -/
lemma within_grow {l : ℕ} {v : ℝ} (hv : 0 < v) {k : ℕ} {s : State} (lid : ℕ)
    (h : Within l v k s) :
    Within l v k (Line.grow s lid) ∧ (lid = l → Within l v (k - 1) (Line.grow s lid)) := by
  by_cases hl : l = lid
  · subst hl
    obtain ⟨h1, h2⟩ := h
    by_cases hc : (s.lobj l).complete = true
    · have hc' := grow_complete_mono s l l hc
      have hsp := (grow_lobj_fields s l l).1
      exact ⟨⟨by rw [hsp, h1], Or.inl hc'⟩, fun _ => ⟨by rw [hsp, h1], Or.inl hc'⟩⟩
    · have hinc : (s.lobj l).complete = false := by simpa using hc
      have hsp := (grow_lobj_fields s l l).1
      have hlt : remaining s l < (k : ℝ) * v := by
        rcases h2 with h2 | h2
        · exact absurd h2 hc
        · exact h2
      by_cases hnear : remaining s l < (s.lobj l).growthSpeed
      · have hc' : ((Line.grow s l).lobj l).complete = true := by
          rw [grow_near s l hinc hnear, finish_lobj]
        exact ⟨⟨by rw [hsp, h1], Or.inl hc'⟩, fun _ => ⟨by rw [hsp, h1], Or.inl hc'⟩⟩
      · have hrem := remaining_grow_far s l hinc (by rw [h1]; exact hv) hnear
        rw [h1] at hrem hnear
        have hk : 1 ≤ k := by
          rcases Nat.eq_zero_or_pos k with h0 | h0
          · subst h0
            have := hypot_nonneg ((s.pobj (s.lobj l).endP).x - (s.lobj l).currentX)
              ((s.pobj (s.lobj l).endP).y - (s.lobj l).currentY)
            unfold remaining at hlt
            simp at hlt
            linarith
          · exact h0
        refine ⟨⟨by rw [hsp, h1], Or.inr (by rw [hrem]; linarith)⟩,
          fun _ => ⟨by rw [hsp, h1], Or.inr ?_⟩⟩
        rw [hrem, Nat.cast_sub hk]
        push_cast
        linarith
  · have h' := within_congr h (grow_lobj_other s lid l hl)
      (grow_pobj_position s lid _).1 (grow_pobj_position s lid _).2
    exact ⟨h', fun he => absurd he.symm hl⟩

/-- One pass of `lines.forEach(line => line.grow())` over any list of lines. -/
lemma within_foldl_grow {l : ℕ} {v : ℝ} (hv : 0 < v) (ls : List ℕ) :
    ∀ {k : ℕ} {s : State}, Within l v k s →
      Within l v k (ls.foldl Line.grow s) ∧
      (l ∈ ls → Within l v (k - 1) (ls.foldl Line.grow s)) := by
  induction ls with
  | nil => intro k s h; exact ⟨h, fun hm => absurd hm (List.not_mem_nil l)⟩
  | cons a ls ih =>
    intro k s h
    obtain ⟨g1, g2⟩ := within_grow hv a h
    simp only [List.foldl_cons]
    refine ⟨(ih g1).1, ?_⟩
    intro hm
    rcases List.mem_cons.mp hm with rfl | hm
    · exact (ih (g2 rfl)).1
    · have := (ih g1).2 hm
      exact this

lemma foldl_grow_lines (ls : List ℕ) : ∀ s : State,
    (ls.foldl Line.grow s).lines = s.lines := by
  induction ls with
  | nil => intro s; rfl
  | cons a ls ih => intro s; simp only [List.foldl_cons]; rw [ih, grow_lines]

/-- A pass of `grow()` calls over lines of the live collection keeps the invariant. -/
lemma inv_foldl_grow (ls : List ℕ) : ∀ {s : State},
    Inv s → (∀ a ∈ ls, a ∈ s.lines) → Inv (ls.foldl Line.grow s) := by
  induction ls with
  | nil => intro s h _; exact h
  | cons a ls ih =>
    intro s h hls
    simp only [List.foldl_cons]
    refine ih (inv_grow h a (hls a (List.mem_cons_self _ _))) ?_
    intro b hb
    rw [grow_lines]
    exact hls b (List.mem_cons_of_mem _ hb)

/-- The expansion to an accepted spot moves no allocated particle. -/
lemma expandToSpot_pobj_position (s s' : State) (spot : ℝ × ℝ) (r r' : Rand)
    (h : expandToSpot s spot r = .ok (s', r')) :
    ∀ q, q < s.pnext → (s'.pobj q).x = (s.pobj q).x ∧ (s'.pobj q).y = (s.pobj q).y := by
  unfold expandToSpot at h
  split at h
  · cases h
  · injection h with h
    injection h with h1 h2
    subst h1
    intro q hq
    obtain ⟨g1, g2, -⟩ := (reassignSpeeds_frame _ _).2.2.2.2.2.2.2.2.2.1 q
    rw [g1, g2]
    simp only [State.allocParticle, State.allocLine]
    rw [Function.update_noteq (Nat.ne_of_lt hq)]
    exact ⟨rfl, rfl⟩

/-- A call of `addParticles()` that returns keeps the live lines in the collection and
moves no allocated particle. -/
lemma addParticles_keeps (s s' : State) (r r' : Rand)
    (hwf : ∀ p ∈ s.particles, p < s.pnext)
    (h : addParticles s r = .ok (s', r')) :
    (∀ l ∈ s.lines, l ∈ s'.lines) ∧
    ∀ q, q < s.pnext → (s'.pobj q).x = (s.pobj q).x ∧ (s'.pobj q).y = (s.pobj q).y := by
  obtain ⟨-, b2, -, -, b5, -, -, -, -, -, -, b12, -, -⟩ :=
    addParticlesLoop_spec s.particles s r hwf
  simp only [addParticles] at h
  split at h
  · obtain ⟨-, c2⟩ := findEmptySpotAndExpand_collections _ s' _ r' h
    refine ⟨?_, ?_⟩
    · intro l hl
      rcases c2 with c2 | c2 <;> rw [c2, b5] <;> simp [hl]
    · intro q hq
      rcases first_candidate (addParticlesLoop s.particles s r).1
          (addParticlesLoop s.particles s r).2 100 with hnone | ⟨k, hk, hfar, hbefore⟩
      · rw [findEmptySpotAndExpand_none _ _ hnone] at h
        injection h with h
        injection h with h1 h2
        subst h1
        rw [b12 q hq]
        exact ⟨rfl, rfl⟩
      · rw [findEmptySpotAndExpand_first _ _ k hk hfar hbefore] at h
        obtain ⟨g1, g2⟩ := expandToSpot_pobj_position _ s' _ _ _ h q (by rw [b2]; omega)
        rw [g1, g2, b12 q hq]
        exact ⟨rfl, rfl⟩
  · injection h with h
    have e : s' = (addParticlesLoop s.particles s r).1 := by rw [h]
    subst e
    refine ⟨?_, ?_⟩
    · intro l hl
      rw [b5]
      exact List.mem_append_left _ hl
    · intro q hq
      rw [b12 q hq]
      exact ⟨rfl, rfl⟩

/-- One callback keeps the invariant, keeps a live line live and does not set it back; an
animation frame brings it one step closer. -/
lemma within_runEvent {l : ℕ} {v : ℝ} (hv : 0 < v) {k : ℕ} {s : State} (e : Event)
    (hinv : Inv s) (hl : l ∈ s.lines) (h : Within l v k s) :
    Inv (runEvent s e) ∧ l ∈ (runEvent s e).lines ∧
    Within l v (match e with | Event.frame => k - 1 | Event.tick _ => k) (runEvent s e) := by
  cases e with
  | frame =>
    refine ⟨inv_foldl_grow s.lines hinv (fun a ha => ha), ?_, ?_⟩
    · show l ∈ (s.lines.foldl Line.grow s).lines
      rw [foldl_grow_lines]; exact hl
    · exact (within_foldl_grow hv s.lines h).2 hl
  | tick r =>
    show Inv (runEvent s (Event.tick r)) ∧ l ∈ (runEvent s (Event.tick r)).lines ∧
      Within l v k (runEvent s (Event.tick r))
    cases hres : addParticles s r with
    | error err =>
      have e1 : runEvent s (Event.tick r) = s := by simp only [runEvent, hres]
      rw [e1]
      exact ⟨hinv, hl, h⟩
    | ok sr =>
      have e1 : runEvent s (Event.tick r) = sr.1 := by simp only [runEvent, hres]
      rw [e1]
      have hok : addParticles s r = .ok (sr.1, sr.2) := hres
      obtain ⟨k1, k2⟩ := addParticles_keeps s sr.1 r sr.2 hinv.live hok
      obtain ⟨g1, g2, -⟩ := hinv.line l hl
      refine ⟨inv_addParticles hinv r sr.2 hok, k1 l hl, ?_⟩
      exact within_congr h ((addParticles_lobj s sr.1 r sr.2 hinv.live hok).2 l g1)
        (k2 _ g2).1 (k2 _ g2).2

/-- After at least `k` animation frames, with any number of `addParticles()` runs in
between and no reset, a live line that was within `k` steps of its end is complete. -/
lemma within_runEvents {l : ℕ} {v : ℝ} (hv : 0 < v) (evs : List Event) :
    ∀ (k : ℕ) {s : State}, Inv s → l ∈ s.lines → Within l v k s → k ≤ frameCount evs →
      ((runEvents s evs).lobj l).complete = true := by
  induction evs with
  | nil =>
    intro k s _ _ h hk
    have hk0 : k = 0 := by simpa [frameCount] using hk
    subst hk0
    rcases h.2 with hc | hlt
    · exact hc
    · have := hypot_nonneg ((s.pobj (s.lobj l).endP).x - (s.lobj l).currentX)
        ((s.pobj (s.lobj l).endP).y - (s.lobj l).currentY)
      unfold remaining at hlt
      simp at hlt
      linarith
  | cons e evs ih =>
    intro k s hinv hl h hk
    obtain ⟨g1, g2, g3⟩ := within_runEvent hv e hinv hl h
    show ((runEvents (runEvent s e) evs).lobj l).complete = true
    cases e with
    | frame =>
      refine ih (k - 1) g1 g2 g3 ?_
      simp only [frameCount] at hk
      omega
    | tick r =>
      exact ih k g1 g2 g3 (by simpa [frameCount] using hk)

lemma SpeedOK.values {v : ℝ} (h : SpeedOK v) : (v = 0.3 ∨ v = 0.01) ∧ 0 < v := by
  rcases h with h | h
  · rw [h, normalGrowthSpeed]; exact ⟨Or.inl rfl, by norm_num⟩
  · rw [h, slowGrowthSpeed]; exact ⟨Or.inr rfl, by norm_num⟩

lemma setAdd_length_le (set : List ℕ) (p : ℕ) : (setAdd set p).length ≤ set.length + 1 := by
  unfold setAdd
  split
  · omega
  · simp

lemma setAdd_subset (set : List ℕ) (p : ℕ) : ∀ c ∈ set, c ∈ setAdd set p := by
  intro c hc
  unfold setAdd
  split
  · exact hc
  · exact List.mem_append_left _ hc

lemma grow_expandedCenters (s : State) (lid : ℕ) :
    (Line.grow s lid).expandedCenters = s.expandedCenters := by
  by_cases hc : (s.lobj lid).complete = true
  · rw [grow_of_complete s lid hc]
  · have hinc : (s.lobj lid).complete = false := by simpa using hc
    by_cases hnear : remaining s lid < (s.lobj lid).growthSpeed
    · rw [grow_near s lid hinc hnear]; simp [Line.finish]
    · rw [grow_far s lid hinc hnear]

lemma foldl_grow_expandedCenters (ls : List ℕ) : ∀ s : State,
    (ls.foldl Line.grow s).expandedCenters = s.expandedCenters := by
  induction ls with
  | nil => intro s; rfl
  | cons a ls ih => intro s; simp only [List.foldl_cons]; rw [ih, grow_expandedCenters]

/-- A call of `findEmptySpotAndExpand()` that returns has left the expanded-centers set as
it was or has added the particle it created. -/
lemma findEmptySpotAndExpand_centers (s s' : State) (r r' : Rand)
    (h : findEmptySpotAndExpand s r = .ok (s', r')) :
    s'.expandedCenters = s.expandedCenters ∨
      s'.expandedCenters = setAdd s.expandedCenters s.pnext := by
  rcases first_candidate s r 100 with hnone | ⟨k, hk, hfar, hbefore⟩
  · rw [findEmptySpotAndExpand_none s r hnone] at h
    injection h with h
    injection h with h1 h2
    subst h1
    exact Or.inl rfl
  · rw [findEmptySpotAndExpand_first s r k hk hfar hbefore] at h
    exact Or.inr (expandToSpot_speeds s s' _ _ _ h).1

/-- A call of `addParticles()` that returns has left the expanded-centers set as it was,
or the set had fewer than 100 members, the live particle count was at least
`maxParticles`, and one particle was added. -/
lemma addParticles_centers (s s' : State) (r r' : Rand)
    (h : addParticles s r = .ok (s', r')) :
    s'.expandedCenters = s.expandedCenters ∨
      (maxParticles ≤ s.particles.length ∧ s.expandedCenters.length < 100 ∧
        s'.expandedCenters
          = setAdd s.expandedCenters (addParticlesLoop s.particles s r).1.pnext) := by
  obtain ⟨b1, b2, -, -, -⟩ := addParticlesLoop_globals s.particles s r
  simp only [addParticles] at h
  split at h
  · rename_i hc
    rw [b1, b2] at hc
    rcases findEmptySpotAndExpand_centers _ s' _ r' h with g | g
    · exact Or.inl (by rw [g, b2])
    · exact Or.inr ⟨hc.1, hc.2, by rw [g, b2]⟩
  · injection h with h
    have e : s' = (addParticlesLoop s.particles s r).1 := by rw [h]
    subst e
    exact Or.inl b2

lemma resetSimulation_expandedCenters (s : State) (r : Rand) :
    (resetSimulation s r).1.expandedCenters = [] := by
  obtain ⟨-, -, -, -, b5, -, -, -, -, -, -, -, -, -⟩ :=
    initializeLoop_spec 3
      { s with particles := [], lines := [], expandedCenters := [] } r
  dsimp only at b5
  simp only [resetSimulation, initializeCenters, clearTimeout_expandedCenters, b5]

/-- While the script runs, the expanded-centers set never has more than 100 members. -/
lemma runs_centers (s : State) (h : Runs s) : s.expandedCenters.length ≤ 100 := by
  induction h with
  | start width height r =>
    obtain ⟨-, -, -, -, b5, -, -, -, -, -, -, -, -, -⟩ :=
      initializeLoop_spec 3 (State.initial width height) r
    rw [initializeCenters, b5]
    simp [State.initial]
  | frame s _ ih =>
    show (s.lines.foldl Line.grow s).expandedCenters.length ≤ 100
    rw [foldl_grow_expandedCenters]
    exact ih
  | tick s s' r r' _ hok ih =>
    rcases addParticles_centers s s' r r' hok with g | ⟨-, g2, g3⟩
    · rw [g]; exact ih
    · rw [g3]
      have := setAdd_length_le s.expandedCenters (addParticlesLoop s.particles s r).1.pnext
      omega
  | timeout s t r _ _ _ => rw [resetSimulation_expandedCenters]; simp
  | resize s width height r _ _ => rw [resetSimulation_expandedCenters]; simp

/-- The expansion to an accepted spot changes no `active` flag of an allocated
particle. -/
lemma expandToSpot_pobj_active (s s' : State) (spot : ℝ × ℝ) (r r' : Rand)
    (h : expandToSpot s spot r = .ok (s', r')) :
    ∀ q, q < s.pnext → (s'.pobj q).active = (s.pobj q).active := by
  unfold expandToSpot at h
  split at h
  · cases h
  · injection h with h
    injection h with h1 h2
    subst h1
    intro q hq
    rw [((reassignSpeeds_frame _ _).2.2.2.2.2.2.2.2.2.1 q).2.2.2.2]
    simp only [State.allocParticle, State.allocLine]
    rw [Function.update_noteq (Nat.ne_of_lt hq)]

/-- A call of `addParticles()` that returns keeps the live particle collection and the
`active` flags of the allocated particles. -/
lemma addParticles_particles (s s' : State) (r r' : Rand)
    (hwf : ∀ p ∈ s.particles, p < s.pnext)
    (h : addParticles s r = .ok (s', r')) :
    s'.particles = s.particles ∧
    ∀ q, q < s.pnext → (s'.pobj q).active = (s.pobj q).active := by
  obtain ⟨-, b2, -, b4, -, -, -, -, -, -, -, b12, -, -⟩ :=
    addParticlesLoop_spec s.particles s r hwf
  simp only [addParticles] at h
  split at h
  · obtain ⟨c1, -⟩ := findEmptySpotAndExpand_collections _ s' _ r' h
    refine ⟨by rw [c1, b4], ?_⟩
    intro q hq
    rcases first_candidate (addParticlesLoop s.particles s r).1
        (addParticlesLoop s.particles s r).2 100 with hnone | ⟨k, hk, hfar, hbefore⟩
    · rw [findEmptySpotAndExpand_none _ _ hnone] at h
      injection h with h
      injection h with h1 h2
      subst h1
      rw [b12 q hq]
    · rw [findEmptySpotAndExpand_first _ _ k hk hfar hbefore] at h
      rw [expandToSpot_pobj_active _ s' _ _ _ h q (by rw [b2]; omega), b12 q hq]
  · injection h with h
    have e : s' = (addParticlesLoop s.particles s r).1 := by rw [h]
    subst e
    exact ⟨b4, fun q hq => by rw [b12 q hq]⟩

/-- With a non-empty particle collection `addParticles()` does not throw. -/
lemma addParticles_ok (s : State) (r : Rand) (hne : s.particles ≠ []) :
    ∃ s' r', addParticles s r = .ok (s', r') := by
  obtain ⟨b1, -, -, -, -⟩ := addParticlesLoop_globals s.particles s r
  simp only [addParticles]
  split
  · exact findEmptySpotAndExpand_ok _ _ (by rw [b1]; exact hne)
  · exact ⟨_, _, rfl⟩

/-- The effect of a `grow()` call on the live particle collection: nothing, or the end
particle of the line is appended. -/
lemma grow_particles (s : State) (lid : ℕ) :
    (Line.grow s lid).particles = s.particles ∨
      (Line.grow s lid).particles = s.particles ++ [(s.lobj lid).endP] := by
  by_cases hc : (s.lobj lid).complete = true
  · rw [grow_of_complete s lid hc]; exact Or.inl rfl
  · have hinc : (s.lobj lid).complete = false := by simpa using hc
    by_cases hnear : remaining s lid < (s.lobj lid).growthSpeed
    · rw [grow_near s lid hinc hnear]; exact Or.inr (finish_particles s lid)
    · rw [grow_far s lid hinc hnear]; exact Or.inl rfl

/-- The particle appended by a completing `grow()` call is active. -/
lemma grow_end_active (s : State) (lid : ℕ)
    (h : (Line.grow s lid).particles = s.particles ++ [(s.lobj lid).endP]) :
    ((Line.grow s lid).pobj (s.lobj lid).endP).active = true := by
  by_cases hc : (s.lobj lid).complete = true
  · rw [grow_of_complete s lid hc] at h
    have := congrArg List.length h
    simp at this
  · have hinc : (s.lobj lid).complete = false := by simpa using hc
    by_cases hnear : remaining s lid < (s.lobj lid).growthSpeed
    · rw [grow_near s lid hinc hnear, finish_pobj_end]
    · rw [grow_far s lid hinc hnear] at h
      have := congrArg List.length h
      simp at this

lemma liveActive_initializeLoop (s : State) (r : Rand) (h : s.particles = []) :
    LiveActive (initializeLoop 3 s r).1 := by
  obtain ⟨-, -, b3, -, -, -, -, -, -, -, -, -, b13, -⟩ := initializeLoop_spec 3 s r
  rw [h] at b3
  have hP : (initializeLoop 3 s r).1.particles = [s.pnext, s.pnext + 4, s.pnext + 8] := by
    rw [b3]; rfl
  refine ⟨by rw [hP]; simp, ?_⟩
  intro p hp
  rw [hP] at hp
  simp only [List.mem_cons, List.mem_singleton, List.not_mem_nil, or_false] at hp
  rcases hp with rfl | rfl | rfl
  · exact b13 0 (by omega)
  · exact b13 1 (by omega)
  · exact b13 2 (by omega)

lemma liveActive_resetSimulation (s : State) (r : Rand) :
    LiveActive (resetSimulation s r).1 := by
  have h := liveActive_initializeLoop
    { s with particles := [], lines := [], expandedCenters := [] } r rfl
  have hP : (resetSimulation s r).1.particles
      = (initializeLoop 3
          { s with particles := [], lines := [], expandedCenters := [] } r).1.particles := by
    simp only [resetSimulation, initializeCenters, clearTimeout_particles]
  have hpo : (resetSimulation s r).1.pobj
      = (initializeLoop 3
          { s with particles := [], lines := [], expandedCenters := [] } r).1.pobj := by
    simp only [resetSimulation, initializeCenters, clearTimeout_pobj]
  unfold LiveActive
  rw [hP, hpo]
  exact h

lemma liveActive_step {s s' : State} (hinv : Inv s) (h : LiveActive s) (hstep : Step s s') :
    LiveActive s' := by
  cases hstep with
  | grow lid hl =>
    rcases grow_particles s lid with g | g
    · refine ⟨by rw [g]; exact h.1, ?_⟩
      intro p hp
      rw [g] at hp
      exact grow_active_mono s lid p (h.2 p hp)
    · refine ⟨by rw [g]; simp, ?_⟩
      intro p hp
      rw [g, List.mem_append, List.mem_singleton] at hp
      rcases hp with hp | rfl
      · exact grow_active_mono s lid p (h.2 p hp)
      · exact grow_end_active s lid g
  | add _ r r' hok =>
    obtain ⟨g1, g2⟩ := addParticles_particles s s' r r' hinv.live hok
    refine ⟨by rw [g1]; exact h.1, ?_⟩
    intro p hp
    rw [g1] at hp
    rw [g2 p (hinv.live p hp)]
    exact h.2 p hp
  | relief _ r r' hok =>
    obtain ⟨g1, -⟩ := findEmptySpotAndExpand_collections s s' r r' hok
    refine ⟨by rw [g1]; exact h.1, ?_⟩
    intro p hp
    rw [g1] at hp
    rcases first_candidate s r 100 with hnone | ⟨k, hk, hfar, hbefore⟩
    · rw [findEmptySpotAndExpand_none s r hnone] at hok
      injection hok with hok
      injection hok with h1 h2
      subst h1
      exact h.2 p hp
    · rw [findEmptySpotAndExpand_first s r k hk hfar hbefore] at hok
      rw [expandToSpot_pobj_active s s' _ _ _ hok p (hinv.live p hp)]
      exact h.2 p hp
  | refresh =>
    refine ⟨by rw [checkRefresh_particles]; exact h.1, ?_⟩
    intro p hp
    rw [checkRefresh_particles] at hp
    rw [checkRefresh_pobj]
    exact h.2 p hp

lemma reachable_liveActive {s : State} (h : Reachable s) : LiveActive s := by
  induction h with
  | init width height r => exact liveActive_initializeLoop _ r rfl
  | step s s' hs hstep ih => exact liveActive_step (reachable_inv hs) ih hstep
  | reset s r _ _ => exact liveActive_resetSimulation s r
  | resize s width height r _ _ => exact liveActive_resetSimulation _ r

lemma reachable_growN (l : ℕ) (n : ℕ) :
    ∀ {s : State}, Reachable s → l ∈ s.lines → Reachable (growN l n s) := by
  induction n with
  | zero => intro s h _; exact h
  | succ n ih =>
    intro s h hl
    simp only [growN]
    exact ih (Reachable.step s _ h (Step.grow s l hl)) (by rw [grow_lines]; exact hl)

/-- From a reachable state with an incomplete live line, a reachable state with one more
live particle: grow that line to completion. -/
lemma reachable_complete_line {s : State} (h : Reachable s) (l : ℕ) (hl : l ∈ s.lines)
    (hinc : (s.lobj l).complete = false) :
    ∃ s', Reachable s' ∧ s'.particles.length = s.particles.length + 1 := by
  have hinv := reachable_inv h
  have hv := (hinv.lspeed l (hinv.line l hl).1).values.2
  have hr0 : 0 ≤ remaining s l := hypot_nonneg _ _
  have hq0 : 0 ≤ remaining s l / (s.lobj l).growthSpeed := div_nonneg hr0 hv.le
  have hlo : (⌊remaining s l / (s.lobj l).growthSpeed⌋₊ : ℝ) * (s.lobj l).growthSpeed
      ≤ remaining s l := by
    have := Nat.floor_le hq0
    rwa [le_div_iff₀ hv] at this
  have hhi : remaining s l
      < ((⌊remaining s l / (s.lobj l).growthSpeed⌋₊ : ℝ) + 1) * (s.lobj l).growthSpeed := by
    have := Nat.lt_floor_add_one (remaining s l / (s.lobj l).growthSpeed)
    rwa [div_lt_iff₀ hv] at this
  obtain ⟨-, h2⟩ :=
    growN_completes l ⌊remaining s l / (s.lobj l).growthSpeed⌋₊ s hinc hv hlo hhi
  refine ⟨growN l (⌊remaining s l / (s.lobj l).growthSpeed⌋₊ + 1) s,
    reachable_growN l _ h hl, ?_⟩
  rw [h2, finish_particles]
  simp

/-- From a reachable state, `addParticles()` leads to a reachable state with the same live
particles and an incomplete live line. -/
lemma reachable_spawn {s : State} (h : Reachable s) :
    ∃ s', Reachable s' ∧ s'.particles = s.particles ∧
      ∃ l ∈ s'.lines, (s'.lobj l).complete = false := by
  have hinv := reachable_inv h
  obtain ⟨hne, hact⟩ := reachable_liveActive h
  obtain ⟨s', r', hok⟩ := addParticles_ok s (fun _ => 0) hne
  obtain ⟨g1, -⟩ := addParticles_particles s s' _ r' hinv.live hok
  refine ⟨s', Reachable.step s s' h (Step.add s s' _ r' hok), g1, ?_⟩
  obtain ⟨p, ps, hps⟩ := List.exists_cons_of_ne_nil hne
  have hpact : (s.pobj p).active = true := hact p (by rw [hps]; exact List.mem_cons_self _ _)
  have hcons : activeOf s s.particles = p :: activeOf s ps := by
    rw [hps]; simp [activeOf, hpact]
  obtain ⟨-, -, b3, -, b5, -, -, -, -, -, -, -, -, b14⟩ :=
    addParticlesLoop_spec s.particles s (fun _ => 0) hinv.live
  have hobj := b14 0 p (by rw [hcons]; exact List.getElem?_cons_zero)
  rw [Nat.add_zero] at hobj
  have hlen : 1 ≤ (activeOf s s.particles).length := by rw [hcons]; simp
  have hmemL : s.lnext ∈ (addParticlesLoop s.particles s (fun _ => 0)).1.lines := by
    rw [b5, List.mem_append, List.mem_range'_1]
    exact Or.inr ⟨le_refl _, by omega⟩
  have hlt : s.lnext < (addParticlesLoop s.particles s (fun _ => 0)).1.lnext := by
    rw [b3]; omega
  refine ⟨s.lnext, ?_, ?_⟩
  · simp only [addParticles] at hok
    split at hok
    · obtain ⟨-, c2⟩ := findEmptySpotAndExpand_collections _ s' _ r' hok
      rcases c2 with c2 | c2 <;> rw [c2]
      · exact hmemL
      · exact List.mem_append_left _ hmemL
    · injection hok with hok
      have e : s' = (addParticlesLoop s.particles s (fun _ => 0)).1 := by rw [hok]
      subst e
      exact hmemL
  · simp only [addParticles] at hok
    split at hok
    · rw [(findEmptySpotAndExpand_lobj _ s' _ r' hok).2 _ hlt, hobj]
    · injection hok with hok
      have e : s' = (addParticlesLoop s.particles s (fun _ => 0)).1 := by rw [hok]
      subst e
      rw [hobj]

/-- The live particle count is unbounded over the reachable states. -/
lemma reachable_particle_count (n : ℕ) : ∃ s, Reachable s ∧ n ≤ s.particles.length := by
  induction n with
  | zero => exact ⟨_, Reachable.init 800 600 (fun _ => 0), Nat.zero_le _⟩
  | succ n ih =>
    obtain ⟨s, hs, hn⟩ := ih
    obtain ⟨s1, h1, e1, l, hl, hinc⟩ := reachable_spawn hs
    obtain ⟨s2, h2, e2⟩ := reachable_complete_line h1 l hl hinc
    exact ⟨s2, h2, by rw [e2, e1]; omega⟩

/-! ## Theorems -/

/-- C1: take a line with growth speed `v > 0` whose start and end particles are at
distance `d`, not yet complete and no farther than `d` from its end (a new line sits on
its start particle, exactly `d` away). It becomes complete at some call number
`n ≤ ⌈d / v⌉ + 1` of `grow()`: incomplete before call `n`, complete from call `n` on, in
particular after `⌈d / v⌉ + 1` calls; and from the moment of completion its current
position is exactly the position of its end particle, which has not moved. -/
theorem grow_completes_within_bound (s : State) (lid : ℕ) (d : ℝ)
    (hinc : (s.lobj lid).complete = false)
    (hv : 0 < (s.lobj lid).growthSpeed)
    (hd : d = hypot ((s.pobj (s.lobj lid).endP).x - (s.pobj (s.lobj lid).start).x)
      ((s.pobj (s.lobj lid).endP).y - (s.pobj (s.lobj lid).start).y))
    (hrem : remaining s lid ≤ d) :
    ∃ n, n ≤ ⌈d / (s.lobj lid).growthSpeed⌉₊ + 1 ∧
      (∀ m, m < n → ((growN lid m s).lobj lid).complete = false) ∧
      (∀ N, n ≤ N →
        ((growN lid N s).lobj lid).complete = true ∧
        ((growN lid N s).lobj lid).currentX
          = ((growN lid N s).pobj ((growN lid N s).lobj lid).endP).x ∧
        ((growN lid N s).lobj lid).currentY
          = ((growN lid N s).pobj ((growN lid N s).lobj lid).endP).y ∧
        ((growN lid N s).pobj ((growN lid N s).lobj lid).endP).x
          = (s.pobj (s.lobj lid).endP).x ∧
        ((growN lid N s).pobj ((growN lid N s).lobj lid).endP).y
          = (s.pobj (s.lobj lid).endP).y) := by
  have hd0 : 0 ≤ d := hd ▸ hypot_nonneg _ _
  have hr0 : 0 ≤ remaining s lid := hypot_nonneg _ _
  have hq0 : 0 ≤ remaining s lid / (s.lobj lid).growthSpeed := div_nonneg hr0 hv.le
  have hlo : (⌊remaining s lid / (s.lobj lid).growthSpeed⌋₊ : ℝ) * (s.lobj lid).growthSpeed
      ≤ remaining s lid := by
    have := Nat.floor_le hq0
    rwa [le_div_iff₀ hv] at this
  have hhi : remaining s lid
      < ((⌊remaining s lid / (s.lobj lid).growthSpeed⌋₊ : ℝ) + 1)
        * (s.lobj lid).growthSpeed := by
    have := Nat.lt_floor_add_one (remaining s lid / (s.lobj lid).growthSpeed)
    rwa [div_lt_iff₀ hv] at this
  obtain ⟨h1, h2⟩ :=
    growN_completes lid ⌊remaining s lid / (s.lobj lid).growthSpeed⌋₊ s hinc hv hlo hhi
  have hc : ((growN lid (⌊remaining s lid / (s.lobj lid).growthSpeed⌋₊ + 1) s).lobj
      lid).complete = true := by
    rw [h2, finish_lobj]
  refine ⟨⌊remaining s lid / (s.lobj lid).growthSpeed⌋₊ + 1, ?_, ?_, ?_⟩
  · have hmono : ⌊remaining s lid / (s.lobj lid).growthSpeed⌋₊
        ≤ ⌊d / (s.lobj lid).growthSpeed⌋₊ :=
      Nat.floor_mono (div_le_div_of_nonneg_right hrem hv.le)
    have := Nat.floor_le_ceil (d / (s.lobj lid).growthSpeed)
    omega
  · intro m hm
    exact h1 m (by omega)
  · intro N hN
    rw [growN_stable lid _ N s hN hc, h2, finish_lobj]
    simp [finish_pobj_end]

/-- Witness for C1: the line of `demoState`, of length `300` and speed `0.3`. -/
theorem grow_completes_within_bound_witness :
    ∃ n, n ≤ ⌈(300 : ℝ) / (demoState.lobj 0).growthSpeed⌉₊ + 1 ∧
      (∀ m, m < n → ((growN 0 m demoState).lobj 0).complete = false) ∧
      (∀ N, n ≤ N →
        ((growN 0 N demoState).lobj 0).complete = true ∧
        ((growN 0 N demoState).lobj 0).currentX
          = ((growN 0 N demoState).pobj ((growN 0 N demoState).lobj 0).endP).x ∧
        ((growN 0 N demoState).lobj 0).currentY
          = ((growN 0 N demoState).pobj ((growN 0 N demoState).lobj 0).endP).y ∧
        ((growN 0 N demoState).pobj ((growN 0 N demoState).lobj 0).endP).x
          = (demoState.pobj (demoState.lobj 0).endP).x ∧
        ((growN 0 N demoState).pobj ((growN 0 N demoState).lobj 0).endP).y
          = (demoState.pobj (demoState.lobj 0).endP).y) :=
  grow_completes_within_bound demoState 0 300 rfl (by norm_num [demoState])
    (by simp [demoState, hypot]) (by simp [remaining, demoState, hypot])

/-- C3: `grow()` on a line that is already complete leaves the whole state unchanged,
and so does any number of repeated calls. -/
theorem grow_complete_noop (s : State) (lid : ℕ) (h : (s.lobj lid).complete = true) :
    Line.grow s lid = s ∧ ∀ n, growN lid n s = s :=
  ⟨grow_of_complete s lid h, growN_of_complete s lid h⟩

/-- Witness for C3 on the initial state, whose default line object is complete. -/
theorem grow_complete_noop_witness :
    ((State.initial 800 600).lobj 0).complete = true ∧
      (Line.grow (State.initial 800 600) 0 = State.initial 800 600 ∧
        ∀ n, growN 0 n (State.initial 800 600) = State.initial 800 600) :=
  ⟨rfl, grow_complete_noop (State.initial 800 600) 0 rfl⟩

/-- C5: whatever the prior state and the draws, after `resetSimulation()` the live
particle collection holds exactly 3 (distinct, fresh) particles, all active; the line
collection holds exactly 9 lines, all incomplete, exactly 3 of them starting at each of
the 3 seeds; the expanded-centers set is empty; the timer handle is null and the timer
it named, if any, is no longer pending. -/
theorem resetSimulation_state (s : State) (r : Rand) :
    (resetSimulation s r).1.particles = [s.pnext, s.pnext + 4, s.pnext + 8] ∧
    (resetSimulation s r).1.particles.length = 3 ∧
    (resetSimulation s r).1.particles.Nodup ∧
    (∀ p ∈ (resetSimulation s r).1.particles,
      ((resetSimulation s r).1.pobj p).active = true) ∧
    (resetSimulation s r).1.lines = List.range' s.lnext 9 ∧
    (resetSimulation s r).1.lines.length = 9 ∧
    (∀ l ∈ (resetSimulation s r).1.lines,
      ((resetSimulation s r).1.lobj l).complete = false) ∧
    (∀ p ∈ (resetSimulation s r).1.particles,
      (resetSimulation s r).1.lines.countP
        (fun l => decide (((resetSimulation s r).1.lobj l).start = p)) = 3) ∧
    (resetSimulation s r).1.expandedCenters = [] ∧
    (resetSimulation s r).1.refreshTimeout = none ∧
    (∀ h, s.refreshTimeout = some h → ∀ t ∈ (resetSimulation s r).1.timers, t.1 ≠ h) := by
  obtain ⟨-, -, b3, b4, b5, b6, -, -, -, -, -, -, b13, b14⟩ :=
    initializeLoop_spec 3
      { s with particles := [], lines := [], expandedCenters := [] } r
  dsimp only at b3 b4 b5 b6 b13 b14
  have hP : (resetSimulation s r).1.particles = [s.pnext, s.pnext + 4, s.pnext + 8] := by
    simp only [resetSimulation, initializeCenters, clearTimeout_particles, b3]
    rfl
  have hL : (resetSimulation s r).1.lines = List.range' s.lnext 9 := by
    simp only [resetSimulation, initializeCenters, clearTimeout_lines, b4]
    rfl
  have hpo : (resetSimulation s r).1.pobj
      = (initializeLoop 3
          { s with particles := [], lines := [], expandedCenters := [] } r).1.pobj := by
    simp only [resetSimulation, initializeCenters, clearTimeout_pobj]
  have hlo : (resetSimulation s r).1.lobj
      = (initializeLoop 3
          { s with particles := [], lines := [], expandedCenters := [] } r).1.lobj := by
    simp only [resetSimulation, initializeCenters, clearTimeout_lobj]
  have hline : ∀ j, j < 9 →
      ((resetSimulation s r).1.lobj (s.lnext + j)).start = s.pnext + 4 * (j / 3) ∧
      ((resetSimulation s r).1.lobj (s.lnext + j)).complete = false := by
    intro j hj
    have h := b14 (j / 3) (by omega) (j % 3) (by omega)
    have e : s.lnext + 3 * (j / 3) + j % 3 = s.lnext + j := by omega
    rw [hlo]
    simp only [e] at h
    exact ⟨h.1, h.2.2⟩
  have hs0 := (hline 0 (by omega)).1
  have hs1 := (hline 1 (by omega)).1
  have hs2 := (hline 2 (by omega)).1
  have hs3 := (hline 3 (by omega)).1
  have hs4 := (hline 4 (by omega)).1
  have hs5 := (hline 5 (by omega)).1
  have hs6 := (hline 6 (by omega)).1
  have hs7 := (hline 7 (by omega)).1
  have hs8 := (hline 8 (by omega)).1
  norm_num at hs0 hs1 hs2 hs3 hs4 hs5 hs6 hs7 hs8
  refine ⟨hP, by rw [hP]; rfl, ?_, ?_, hL, by rw [hL]; simp, ?_, ?_, ?_, ?_, ?_⟩
  · rw [hP]; simp
  · intro p hp
    rw [hP] at hp
    rw [hpo]
    simp only [List.mem_cons, List.mem_singleton, List.not_mem_nil, or_false] at hp
    rcases hp with rfl | rfl | rfl
    · exact b13 0 (by omega)
    · exact b13 1 (by omega)
    · exact b13 2 (by omega)
  · intro l hl
    rw [hL, List.mem_range'_1] at hl
    have h := (hline (l - s.lnext) (by omega)).2
    have e : s.lnext + (l - s.lnext) = l := by omega
    rwa [e] at h
  · intro p hp
    rw [hP] at hp
    rw [hL]
    simp only [List.mem_cons, List.mem_singleton, List.not_mem_nil, or_false] at hp
    rcases hp with rfl | rfl | rfl <;>
      simp [List.range', List.countP_cons, hs0, hs1, hs2, hs3, hs4, hs5, hs6, hs7, hs8,
        add_assoc]
  · simp only [resetSimulation, initializeCenters, clearTimeout_expandedCenters, b5]
  · simp only [resetSimulation]
  · intro h hh
    have e : (initializeCenters
        { s with particles := [], lines := [], expandedCenters := [] } r).1.refreshTimeout
        = some h := by
      rw [initializeCenters, b6]; exact hh
    simp only [resetSimulation, e]
    exact clearTimeout_timers_some _ h

/-- C6: whenever `findEmptySpotAndExpand()` returns having created a particle, exactly
one particle was created, it sits on one of the 100 candidates, it is farther than 100
from every particle of the live collection as it was at that moment, and every earlier
candidate, in attempt order, had a live particle within distance 100. -/
theorem findEmptySpotAndExpand_first_sparse (s s' : State) (r r' : Rand)
    (h : findEmptySpotAndExpand s r = .ok (s', r'))
    (hnew : s'.pnext ≠ s.pnext) :
    s'.pnext = s.pnext + 1 ∧
    (∀ p ∈ s.particles,
      hypot ((s.pobj p).x - (s'.pobj s.pnext).x) ((s.pobj p).y - (s'.pobj s.pnext).y)
        > 100) ∧
    ∃ k, k < 100 ∧
      (s'.pobj s.pnext).x = (candidate s r k).1 ∧
      (s'.pobj s.pnext).y = (candidate s r k).2 ∧
      ∀ j, j < k → ∃ p ∈ s.particles,
        hypot ((s.pobj p).x - (candidate s r j).1) ((s.pobj p).y - (candidate s r j).2)
          ≤ 100 := by
  rcases first_candidate s r 100 with hnone | ⟨k, hk, hfar, hbefore⟩
  · rw [findEmptySpotAndExpand_none s r hnone] at h
    injection h with h
    injection h with h1 h2
    exact absurd (by rw [h1]) hnew
  · rw [findEmptySpotAndExpand_first s r k hk hfar hbefore] at h
    obtain ⟨h1, h2, h3⟩ := expandToSpot_new_particle s s' _ _ _ h
    refine ⟨h1, ?_, k, hk, h2, h3, ?_⟩
    · rw [h2, h3]
      exact (isFarEnough_iff s _ _).mp hfar
    · intro j hj
      exact (isFarEnough_false_iff s _ _).mp (hbefore j hj)

/-- Witness for C6: in `demoState` with all draws equal to `1/2` the first candidate is
`(400, 300)`, at distance `500` from the only live particle. -/
theorem findEmptySpotAndExpand_first_sparse_witness :
    ∃ s' r', findEmptySpotAndExpand demoState (fun _ => 1 / 2) = .ok (s', r') ∧
      s'.pnext = demoState.pnext + 1 ∧
      (∀ p ∈ demoState.particles,
        hypot ((demoState.pobj p).x - (s'.pobj demoState.pnext).x)
          ((demoState.pobj p).y - (s'.pobj demoState.pnext).y) > 100) ∧
      ∃ k, k < 100 ∧
        (s'.pobj demoState.pnext).x = (candidate demoState (fun _ => 1 / 2) k).1 ∧
        (s'.pobj demoState.pnext).y = (candidate demoState (fun _ => 1 / 2) k).2 ∧
        ∀ j, j < k → ∃ p ∈ demoState.particles,
          hypot ((demoState.pobj p).x - (candidate demoState (fun _ => 1 / 2) j).1)
            ((demoState.pobj p).y - (candidate demoState (fun _ => 1 / 2) j).2) ≤ 100 := by
  have hfar : isFarEnough demoState (candidate demoState (fun _ => 1 / 2) 0).1
      (candidate demoState (fun _ => 1 / 2) 0).2 = true := by
    rw [isFarEnough_iff]
    intro p hp
    have hp0 : p = 0 := by simpa [demoState] using hp
    subst hp0
    have e : hypot ((demoState.pobj 0).x - (candidate demoState (fun _ => 1 / 2) 0).1)
        ((demoState.pobj 0).y - (candidate demoState (fun _ => 1 / 2) 0).2) = 500 := by
      have e1 : (demoState.pobj 0).x - (candidate demoState (fun _ => 1 / 2) 0).1 = -400 := by
        simp only [demoState, candidate, State.initial]; norm_num
      have e2 : (demoState.pobj 0).y - (candidate demoState (fun _ => 1 / 2) 0).2 = -300 := by
        simp only [demoState, candidate, State.initial]; norm_num
      rw [e1, e2, hypot, show (-400 : ℝ) * -400 + -300 * -300 = 500 * 500 by norm_num]
      exact Real.sqrt_mul_self (by norm_num)
    rw [e]
    norm_num
  have h1 := findEmptySpotAndExpand_first demoState (fun _ => 1 / 2) 0 (by norm_num) hfar
    (fun j hj => absurd hj (Nat.not_lt_zero j))
  obtain ⟨s', r', h2⟩ : ∃ s' r', expandToSpot demoState
      (candidate demoState (fun _ => 1 / 2) 0) (Rand.drop (fun _ => 1 / 2) (2 * (0 + 1)))
      = .ok (s', r') := ⟨_, _, rfl⟩
  have hp := (expandToSpot_new_particle demoState s' _ _ r' h2).1
  exact ⟨s', r', h1.trans h2,
    findEmptySpotAndExpand_first_sparse demoState s' (fun _ => 1 / 2) r' (h1.trans h2)
      (by rw [hp]; exact Nat.succ_ne_self _)⟩

/-- C9: in a state whose live particles are allocated objects, the `forEach` loop of
`addParticles()` appends exactly one new line per active live particle, in collection
order and starting at that particle, and none for inactive ones; the live particle
collection stays the same; `findEmptySpotAndExpand()` is then invoked exactly when the
live particle count is at least 2000 and the expanded-centers set has fewer than 100
members; the call returns normally and the line count has grown by the number of active
live particles, plus at most one. -/
theorem addParticles_effect (s : State) (r : Rand)
    (hwf : ∀ p ∈ s.particles, p < s.pnext) :
    (addParticlesLoop s.particles s r).1.lines
      = s.lines ++ List.range' s.lnext (activeOf s s.particles).length ∧
    (∀ i p, (activeOf s s.particles)[i]? = some p →
      ((addParticlesLoop s.particles s r).1.lobj (s.lnext + i)).start = p ∧
      ((addParticlesLoop s.particles s r).1.lobj (s.lnext + i)).currentX = (s.pobj p).x ∧
      ((addParticlesLoop s.particles s r).1.lobj (s.lnext + i)).currentY = (s.pobj p).y ∧
      ((addParticlesLoop s.particles s r).1.lobj (s.lnext + i)).complete = false) ∧
    (addParticlesLoop s.particles s r).1.particles = s.particles ∧
    (∀ l, l < s.lnext → (addParticlesLoop s.particles s r).1.lobj l = s.lobj l) ∧
    addParticles s r =
      (if maxParticles ≤ s.particles.length ∧ s.expandedCenters.length < 100 then
        findEmptySpotAndExpand (addParticlesLoop s.particles s r).1
          (addParticlesLoop s.particles s r).2
      else .ok (addParticlesLoop s.particles s r)) ∧
    ∃ s' r', addParticles s r = .ok (s', r') ∧
      s'.particles = s.particles ∧
      (s'.lines = (addParticlesLoop s.particles s r).1.lines ∨
        s'.lines = (addParticlesLoop s.particles s r).1.lines
          ++ [(addParticlesLoop s.particles s r).1.lnext]) ∧
      s.lines.length + (activeOf s s.particles).length ≤ s'.lines.length ∧
      s'.lines.length ≤ s.lines.length + (activeOf s s.particles).length + 1 := by
  obtain ⟨-, -, -, b4, b5, b6, -, -, -, -, -, -, b13, b14⟩ :=
    addParticlesLoop_spec s.particles s r hwf
  have hdef : addParticles s r =
      (if maxParticles ≤ s.particles.length ∧ s.expandedCenters.length < 100 then
        findEmptySpotAndExpand (addParticlesLoop s.particles s r).1
          (addParticlesLoop s.particles s r).2
      else .ok (addParticlesLoop s.particles s r)) := by
    simp only [addParticles, b4, b6]
  refine ⟨b5, ?_, b4, b13, hdef, ?_⟩
  · intro i p hp
    rw [b14 i p hp]
    exact ⟨rfl, rfl, rfl, rfl⟩
  · by_cases hc : maxParticles ≤ s.particles.length ∧ s.expandedCenters.length < 100
    · have hne : (addParticlesLoop s.particles s r).1.particles ≠ [] := by
        rw [b4]
        intro h0
        have := hc.1
        rw [h0] at this
        simp [maxParticles] at this
      obtain ⟨s', r', hok⟩ := findEmptySpotAndExpand_ok _ (addParticlesLoop s.particles s r).2 hne
      obtain ⟨c1, c2⟩ := findEmptySpotAndExpand_collections _ s' _ r' hok
      refine ⟨s', r', by rw [hdef, if_pos hc, hok], by rw [c1, b4], c2, ?_, ?_⟩
      · rcases c2 with c2 | c2 <;> rw [c2, b5] <;> simp
      · rcases c2 with c2 | c2 <;> rw [c2, b5] <;>
          simp only [List.length_append, List.length_range', List.length_singleton] <;> omega
    · refine ⟨_, _, by rw [hdef, if_neg hc], b4, Or.inl rfl, ?_, ?_⟩
      · rw [b5]; simp
      · rw [b5]; simp

/-- Witness for C9: `demoState`, whose only live particle (reference 0) is allocated. -/
theorem addParticles_effect_witness :
    (addParticlesLoop demoState.particles demoState (fun _ => 0)).1.lines
      = demoState.lines ++ List.range' demoState.lnext
          (activeOf demoState demoState.particles).length ∧
    (addParticlesLoop demoState.particles demoState (fun _ => 0)).1.particles
      = demoState.particles :=
  have h := addParticles_effect demoState (fun _ => 0)
    (fun p hp => by
      have : p = 0 := by simpa [demoState] using hp
      subst this
      exact Nat.zero_lt_succ 1)
  ⟨h.1, h.2.2.1⟩

/-- C10: if every one of the 100 candidates has a live particle within distance 100,
`findEmptySpotAndExpand()` returns normally and leaves the whole state unchanged (no
particle, no line, same expanded-centers set, same growth speeds); only the 200 draws are
consumed. -/
theorem findEmptySpotAndExpand_no_spot (s : State) (r : Rand)
    (h : ∀ k, k < 100 → ∃ p ∈ s.particles,
      hypot ((s.pobj p).x - (candidate s r k).1) ((s.pobj p).y - (candidate s r k).2)
        ≤ 100) :
    findEmptySpotAndExpand s r = .ok (s, r.drop 200) :=
  findEmptySpotAndExpand_none s r
    (fun k hk => (isFarEnough_false_iff s _ _).mpr (h k hk))

/-- Witness for C10: in `demoState` the only live particle is at the origin, and with all
draws equal to `0` every candidate is the origin itself. -/
theorem findEmptySpotAndExpand_no_spot_witness :
    findEmptySpotAndExpand demoState (fun _ => 0)
      = .ok (demoState, Rand.drop (fun _ => 0) 200) :=
  findEmptySpotAndExpand_no_spot demoState (fun _ => 0)
    (fun k _ => ⟨0, by simp [demoState], by simp [candidate, demoState, hypot]⟩)

/-- C7 (refuted as stated): right after `expandFromParticle` created a line from the
particle at the origin of `demoState`, the line (reference 1) is incomplete and no
`grow()` call has run, yet its end particle already has `active = true`. -/
theorem end_particle_active_before_completion :
    ((expandFromParticle 0 1 demoState (fun _ => 0)).1.lobj 1).complete = false ∧
    ((expandFromParticle 0 1 demoState (fun _ => 0)).1.pobj
      ((expandFromParticle 0 1 demoState (fun _ => 0)).1.lobj 1).endP).active = true := by
  have h := expandFromParticle_objects 0 1 demoState (fun _ => 0) (by decide) 0 (by decide)
  have e1 : demoState.lnext + 0 = 1 := rfl
  have e2 : demoState.pnext + 0 = 2 := rfl
  rw [e1, e2] at h
  rw [h.1, h.2]
  exact ⟨rfl, rfl⟩

/-- C7 (amended): every particle is constructed with `active = true`, the end particles
of new lines included: the end particle of each line created by `expandFromParticle`
from an allocated particle, and the particle created by `findEmptySpotAndExpand`, are
active as soon as they exist, while their line is still incomplete; and no `grow()` call
ever clears an `active` flag, so the flag is `true` throughout and the assignment
`end.active = true` of the completing call does not change it. -/
theorem particle_active_from_creation (s : State) (r : Rand) (p n : ℕ)
    (hp : p < s.pnext) :
    (∀ x y v, (Particle.new x y v r).active = true) ∧
    (∀ i, i < n →
      ((expandFromParticle p n s r).1.lobj (s.lnext + i)).complete = false ∧
      ((expandFromParticle p n s r).1.pobj
        ((expandFromParticle p n s r).1.lobj (s.lnext + i)).endP).active = true) ∧
    (∀ s' r', findEmptySpotAndExpand s r = .ok (s', r') → s'.pnext ≠ s.pnext →
      (s'.lobj s.lnext).endP = s.pnext ∧ (s'.lobj s.lnext).complete = false ∧
      (s'.pobj s.pnext).active = true) ∧
    (∀ lid q, (s.pobj q).active = true → ((Line.grow s lid).pobj q).active = true) := by
  refine ⟨fun _ _ _ => rfl, ?_, ?_, fun lid q h => grow_active_mono s lid q h⟩
  · intro i hi
    obtain ⟨h1, h2⟩ := expandFromParticle_objects p n s r hp i hi
    rw [h1, h2]
    exact ⟨rfl, rfl⟩
  · intro s' r' h hnew
    rcases first_candidate s r 100 with hnone | ⟨k, hk, hfar, hbefore⟩
    · rw [findEmptySpotAndExpand_none s r hnone] at h
      injection h with h
      injection h with h1 h2
      exact absurd (by rw [h1]) hnew
    · rw [findEmptySpotAndExpand_first s r k hk hfar hbefore] at h
      exact expandToSpot_new_active s s' _ _ _ h

/-- Witness for C7 (amended): two extensions from the particle at the origin of
`demoState`; the second new line and its end particle. -/
theorem particle_active_from_creation_witness :
    ((expandFromParticle 0 2 demoState (fun _ => 0)).1.lobj
      (demoState.lnext + 1)).complete = false ∧
    ((expandFromParticle 0 2 demoState (fun _ => 0)).1.pobj
      ((expandFromParticle 0 2 demoState (fun _ => 0)).1.lobj
        (demoState.lnext + 1)).endP).active = true :=
  (particle_active_from_creation demoState (fun _ => 0) 0 2 (by decide)).2.1 1 (by decide)

/-- C8: for an incomplete line whose remaining distance is strictly less than its growth
speed, one `grow()` call puts the current position on the end particle (which has not
moved), sets `complete`, sets `end.active`, appends the end particle as last element of
the live particle collection, arms a new 45000 ms timer exactly when no timer was
armed, and leaves the line collection and the expanded-centers set unchanged; no other
line object and no other particle object is touched. -/
theorem grow_snap_effect (s : State) (lid : ℕ)
    (hinc : (s.lobj lid).complete = false)
    (hnear : remaining s lid < (s.lobj lid).growthSpeed) :
    ((Line.grow s lid).lobj lid).currentX = (s.pobj (s.lobj lid).endP).x ∧
    ((Line.grow s lid).lobj lid).currentY = (s.pobj (s.lobj lid).endP).y ∧
    ((Line.grow s lid).lobj lid).complete = true ∧
    ((Line.grow s lid).lobj lid).endP = (s.lobj lid).endP ∧
    ((Line.grow s lid).pobj (s.lobj lid).endP).active = true ∧
    ((Line.grow s lid).pobj (s.lobj lid).endP).x = (s.pobj (s.lobj lid).endP).x ∧
    ((Line.grow s lid).pobj (s.lobj lid).endP).y = (s.pobj (s.lobj lid).endP).y ∧
    (Line.grow s lid).particles = s.particles ++ [(s.lobj lid).endP] ∧
    (Line.grow s lid).particles.length = s.particles.length + 1 ∧
    (s.refreshTimeout = none →
      (Line.grow s lid).refreshTimeout = some s.tnext ∧
      (Line.grow s lid).timers = s.timers ++ [(s.tnext, 45000)]) ∧
    (∀ h, s.refreshTimeout = some h →
      (Line.grow s lid).refreshTimeout = some h ∧ (Line.grow s lid).timers = s.timers) ∧
    (Line.grow s lid).lines = s.lines ∧
    (Line.grow s lid).expandedCenters = s.expandedCenters ∧
    (∀ j, j ≠ lid → (Line.grow s lid).lobj j = s.lobj j) ∧
    (∀ p, p ≠ (s.lobj lid).endP → (Line.grow s lid).pobj p = s.pobj p) := by
  rw [grow_near s lid hinc hnear]
  refine ⟨by simp [Line.finish], by simp [Line.finish], by simp [Line.finish],
    by simp [Line.finish], by simp [Line.finish], by simp [Line.finish],
    by simp [Line.finish], by simp [Line.finish], by simp [Line.finish], ?_, ?_,
    by simp [Line.finish], by simp [Line.finish], ?_, ?_⟩
  · intro h0
    simp [Line.finish, checkRefresh, h0]
  · intro h h0
    simp [Line.finish, checkRefresh, h0]
  · intro j hj
    simp [Line.finish, Function.update_noteq hj]
  · intro p hp
    simp [Line.finish, Function.update_noteq hp]

/-- Witness for C8: the line of `demoNear` is `0.1` short of its end, less than its growth
speed `0.3`. -/
theorem grow_snap_effect_witness :
    ((Line.grow demoNear 0).lobj 0).complete = true ∧
    (Line.grow demoNear 0).particles = [0, 1] ∧
    (Line.grow demoNear 0).refreshTimeout = some 0 := by
  have hnear : remaining demoNear 0 < (demoNear.lobj 0).growthSpeed := by
    have h : remaining demoNear 0 = Real.sqrt ((0.1 : ℝ) * 0.1) := by
      simp only [remaining, hypot, demoNear, demoState]
      norm_num
    rw [h, Real.sqrt_mul_self (by norm_num)]
    show (0.1 : ℝ) < 0.3
    norm_num
  have h := grow_snap_effect demoNear 0 rfl hnear
  exact ⟨h.2.2.1, h.2.2.2.2.2.2.2.1, (h.2.2.2.2.2.2.2.2.2.1 rfl).1⟩

/-- C11: when `findEmptySpotAndExpand()` returns having accepted a candidate, it has
appended exactly one line; the end of that line is the new particle, which sits on the
candidate; its start is a particle of the live collection whose distance to the candidate
is minimal over the collection, and every particle that comes earlier in the collection is
strictly farther from the candidate. -/
theorem findEmptySpotAndExpand_nearest (s s' : State) (r r' : Rand)
    (h : findEmptySpotAndExpand s r = .ok (s', r'))
    (hnew : s'.pnext ≠ s.pnext) :
    s'.lines = s.lines ++ [s.lnext] ∧
    (s'.lobj s.lnext).endP = s.pnext ∧
    (∃ k, k < 100 ∧ (s'.pobj s.pnext).x = (candidate s r k).1 ∧
      (s'.pobj s.pnext).y = (candidate s r k).2) ∧
    ∃ i : ℕ, s.particles[i]? = some (s'.lobj s.lnext).start ∧
      (∀ q ∈ s.particles,
        distTo s ((s'.pobj s.pnext).x, (s'.pobj s.pnext).y) (s'.lobj s.lnext).start
          ≤ distTo s ((s'.pobj s.pnext).x, (s'.pobj s.pnext).y) q) ∧
      ∀ (j q : ℕ), j < i → s.particles[j]? = some q →
        distTo s ((s'.pobj s.pnext).x, (s'.pobj s.pnext).y) (s'.lobj s.lnext).start
          < distTo s ((s'.pobj s.pnext).x, (s'.pobj s.pnext).y) q := by
  rcases first_candidate s r 100 with hnone | ⟨k, hk, hfar, hbefore⟩
  · rw [findEmptySpotAndExpand_none s r hnone] at h
    injection h with h
    injection h with h1 h2
    exact absurd (by rw [h1]) hnew
  · rw [findEmptySpotAndExpand_first s r k hk hfar hbefore] at h
    obtain ⟨-, h2, h3⟩ := expandToSpot_new_particle s s' _ _ _ h
    obtain ⟨-, h5⟩ := expandToSpot_collections s s' _ _ _ h
    obtain ⟨h6, -, -⟩ := expandToSpot_new_active s s' _ _ _ h
    obtain ⟨p0, rest, hps, hstart⟩ := expandToSpot_line s s' _ _ _ h
    refine ⟨h5, h6, ⟨k, hk, h2, h3⟩, ?_⟩
    obtain ⟨i, g1, g2, g3⟩ := foldl_nearer_head s (candidate s r k) p0 rest
    rw [h2, h3, hstart, hps]
    exact ⟨i, g1, g3, g2⟩

/-- Witness for C11: the accepted candidate of `demoState`; the new line starts at the
only live particle. -/
theorem findEmptySpotAndExpand_nearest_witness :
    ∃ s' r', findEmptySpotAndExpand demoState (fun _ => 1 / 2) = .ok (s', r') ∧
      s'.lines = demoState.lines ++ [demoState.lnext] ∧
      (s'.lobj demoState.lnext).endP = demoState.pnext := by
  obtain ⟨s', r', h, hnew⟩ := demoState_accepts
  have g := findEmptySpotAndExpand_nearest demoState s' (fun _ => 1 / 2) r' h hnew
  exact ⟨s', r', h, g.1, g.2.1⟩

/-- C12: after a call of `findEmptySpotAndExpand()` that accepted a candidate, in a state
whose expanded centers are allocated particles, the expanded-centers set has gained
exactly the new particle, and every particle of the live collection has growth speed
`normalGrowthSpeed = 0.3` if it is in the set and `slowGrowthSpeed = 0.01` otherwise. -/
theorem findEmptySpotAndExpand_speeds (s s' : State) (r r' : Rand)
    (h : findEmptySpotAndExpand s r = .ok (s', r'))
    (hnew : s'.pnext ≠ s.pnext)
    (hec : ∀ c ∈ s.expandedCenters, c < s.pnext) :
    s.pnext ∉ s.expandedCenters ∧
    s'.expandedCenters = s.expandedCenters ++ [s.pnext] ∧
    (∀ q ∈ s'.particles, (s'.pobj q).growthSpeed
      = if q ∈ s'.expandedCenters then normalGrowthSpeed else slowGrowthSpeed) ∧
    normalGrowthSpeed = 0.3 ∧ slowGrowthSpeed = 0.01 := by
  have hfresh : s.pnext ∉ s.expandedCenters := fun hm => lt_irrefl _ (hec _ hm)
  rcases first_candidate s r 100 with hnone | ⟨k, hk, hfar, hbefore⟩
  · rw [findEmptySpotAndExpand_none s r hnone] at h
    injection h with h
    injection h with h1 h2
    exact absurd (by rw [h1]) hnew
  · rw [findEmptySpotAndExpand_first s r k hk hfar hbefore] at h
    obtain ⟨h1, h2⟩ := expandToSpot_speeds s s' _ _ _ h
    refine ⟨hfresh, ?_, h2, rfl, rfl⟩
    rw [h1, setAdd, if_neg hfresh]

/-- Witness for C12: the accepted candidate of `demoState`, whose expanded-centers set is
empty. -/
theorem findEmptySpotAndExpand_speeds_witness :
    ∃ s' r', findEmptySpotAndExpand demoState (fun _ => 1 / 2) = .ok (s', r') ∧
      s'.expandedCenters = demoState.expandedCenters ++ [demoState.pnext] := by
  obtain ⟨s', r', h, hnew⟩ := demoState_accepts
  have g := findEmptySpotAndExpand_speeds demoState s' (fun _ => 1 / 2) r' h hnew
    (fun c hc => by simp [demoState, State.initial] at hc)
  exact ⟨s', r', h, g.2.1⟩

/-- C15: in a state whose live particles are allocated objects, a line created by
`expandFromParticle` or by `findEmptySpotAndExpand` has the growth speed its start
particle had at that moment, and the growth speed of a line object is not changed
afterwards: `grow()` leaves the growth speed of every line unchanged, and `addParticles()`
and `findEmptySpotAndExpand()` (with its reassignment of particle speeds) leave the growth
speed of every already existing line unchanged. -/
theorem line_growthSpeed_fixed (s : State) (r : Rand)
    (hwf : ∀ p ∈ s.particles, p < s.pnext) :
    (∀ p n i, p < s.pnext → i < n →
      ((expandFromParticle p n s r).1.lobj (s.lnext + i)).start = p ∧
      ((expandFromParticle p n s r).1.lobj (s.lnext + i)).growthSpeed
        = (s.pobj p).growthSpeed) ∧
    (∀ s' r', findEmptySpotAndExpand s r = .ok (s', r') → s'.pnext ≠ s.pnext →
      (s'.lobj s.lnext).growthSpeed = (s.pobj (s'.lobj s.lnext).start).growthSpeed) ∧
    (∀ lid l, ((Line.grow s lid).lobj l).growthSpeed = (s.lobj l).growthSpeed) ∧
    (∀ l s' r', l < s.lnext → addParticles s r = .ok (s', r') →
      (s'.lobj l).growthSpeed = (s.lobj l).growthSpeed) ∧
    (∀ l s' r', l < s.lnext → findEmptySpotAndExpand s r = .ok (s', r') →
      (s'.lobj l).growthSpeed = (s.lobj l).growthSpeed) := by
  refine ⟨?_, ?_, fun lid l => (grow_lobj_fields s lid l).1, ?_, ?_⟩
  · intro p n i hp hi
    rw [(expandFromParticle_objects p n s r hp i hi).1]
    exact ⟨rfl, rfl⟩
  · intro s' r' h hnew
    rcases first_candidate s r 100 with hnone | ⟨k, hk, hfar, hbefore⟩
    · rw [findEmptySpotAndExpand_none s r hnone] at h
      injection h with h
      injection h with h1 h2
      exact absurd (by rw [h1]) hnew
    · rw [findEmptySpotAndExpand_first s r k hk hfar hbefore] at h
      exact (expandToSpot_line_speed s s' _ _ _ hwf h).2
  · intro l s' r' hl h
    rw [(addParticles_lobj s s' r r' hwf h).2 l hl]
  · intro l s' r' hl h
    rw [(findEmptySpotAndExpand_lobj s s' r r' h).2 l hl]

/-- Witness for C15: a `grow()` call on the line of `demoState` keeps its growth
speed. -/
theorem line_growthSpeed_fixed_witness :
    ((Line.grow demoState 0).lobj 0).growthSpeed = (demoState.lobj 0).growthSpeed :=
  (line_growthSpeed_fixed demoState (fun _ => 0)
    (fun p hp => by
      have : p = 0 := by simpa [demoState] using hp
      subst this
      exact Nat.zero_lt_succ 1)).2.2.1 0 0

/-- C13: `checkRefresh()` arms a new timeout of 45000 ms only when the timer handle is
empty, and then changes nothing else; when a timeout is already armed it leaves the whole
state unchanged. `resetSimulation()` empties the handle, and any number of calls other
than a reset schedules at most one timeout, however many lines complete; in every
reachable state at most one timeout is pending, the one named by the handle. -/
theorem reset_timer_armed_once :
    (∀ s : State, s.refreshTimeout = none →
      TimerArmed s (checkRefresh s) ∧
      (checkRefresh s).pobj = s.pobj ∧ (checkRefresh s).lobj = s.lobj ∧
      (checkRefresh s).particles = s.particles ∧ (checkRefresh s).lines = s.lines ∧
      (checkRefresh s).expandedCenters = s.expandedCenters) ∧
    (∀ (s : State) (k : ℕ), s.refreshTimeout = some k → checkRefresh s = s) ∧
    (∀ (s : State) (r : Rand), (resetSimulation s r).1.refreshTimeout = none) ∧
    (∀ s s' : State, Relation.ReflTransGen Step s s' →
      TimerKept s s' ∨
        (s'.refreshTimeout = some s.tnext ∧ s'.timers = s.timers ++ [(s.tnext, 45000)])) ∧
    (∀ s : State, Reachable s →
      (s.refreshTimeout = none ∧ s.timers = []) ∨
        ∃ k, s.refreshTimeout = some k ∧ s.timers = [(k, 45000)]) :=
  ⟨fun s h => ⟨checkRefresh_of_none s h, checkRefresh_pobj s, checkRefresh_lobj s,
      checkRefresh_particles s, checkRefresh_lines s, checkRefresh_expandedCenters s⟩,
    checkRefresh_of_some,
    fun s r => (resetSimulation_timer s r).1,
    steps_timer,
    reachable_timer⟩

/-- Witness for C13: in `demoState` the handle is empty; two consecutive calls of
`checkRefresh()` schedule a single timeout. -/
theorem reset_timer_armed_once_witness :
    TimerKept demoState (checkRefresh (checkRefresh demoState)) ∨
      ((checkRefresh (checkRefresh demoState)).refreshTimeout = some demoState.tnext ∧
        (checkRefresh (checkRefresh demoState)).timers
          = demoState.timers ++ [(demoState.tnext, 45000)]) :=
  reset_timer_armed_once.2.2.2.1 demoState (checkRefresh (checkRefresh demoState))
    (Relation.ReflTransGen.tail
      (Relation.ReflTransGen.single (Step.refresh demoState))
      (Step.refresh (checkRefresh demoState)))

/-- C17: in every state reachable from `initializeCenters()` by `grow()`,
`addParticles()`, `findEmptySpotAndExpand()`, `checkRefresh()` and `resetSimulation()`,
the end particle of a line of the live line collection is in the live particle collection
if and only if the line is complete, and no particle occurs more than once in the live
particle collection. -/
theorem reachable_end_live_iff_complete (s : State) (h : Reachable s) :
    (∀ l ∈ s.lines, (s.lobj l).endP ∈ s.particles ↔ (s.lobj l).complete = true) ∧
    s.particles.Nodup :=
  ⟨fun l hl => ((reachable_inv h).line l hl).2.2, (reachable_inv h).nodup⟩

/-- Witness for C17: the state right after `initializeCenters()` on the initial state for a
viewport of 800 by 600. -/
theorem reachable_end_live_iff_complete_witness :
    (initializeCenters (State.initial 800 600) (fun _ => 0)).1.particles.Nodup :=
  (reachable_end_live_iff_complete _ (Reachable.init 800 600 (fun _ => 0))).2

/-- C18: in every reachable state every live particle, every line of the live collection
and the end particle of every such line has growth speed `0.3` or `0.01`, hence a
positive one; and every line of the live collection is complete after a bounded number of
animation frames: there is an `n` such that after any sequence of animation frames and
`addParticles()` runs, with no reset, that contains at least `n` frames, the line is
complete. -/
theorem reachable_speeds_and_completion (s : State) (h : Reachable s) :
    (∀ p ∈ s.particles,
      ((s.pobj p).growthSpeed = 0.3 ∨ (s.pobj p).growthSpeed = 0.01) ∧
      0 < (s.pobj p).growthSpeed) ∧
    (∀ l ∈ s.lines,
      ((s.lobj l).growthSpeed = 0.3 ∨ (s.lobj l).growthSpeed = 0.01) ∧
      0 < (s.lobj l).growthSpeed ∧
      ((s.pobj (s.lobj l).endP).growthSpeed = 0.3 ∨
        (s.pobj (s.lobj l).endP).growthSpeed = 0.01) ∧
      0 < (s.pobj (s.lobj l).endP).growthSpeed) ∧
    (∀ l ∈ s.lines, ∃ n : ℕ, ∀ evs : List Event, n ≤ frameCount evs →
      ((runEvents s evs).lobj l).complete = true) := by
  have hinv := reachable_inv h
  refine ⟨?_, ?_, ?_⟩
  · intro p hp
    exact (hinv.pspeed p (hinv.live p hp)).values
  · intro l hl
    obtain ⟨g1, g2, -⟩ := hinv.line l hl
    exact ⟨(hinv.lspeed l g1).values.1, (hinv.lspeed l g1).values.2,
      (hinv.pspeed _ g2).values.1, (hinv.pspeed _ g2).values.2⟩
  · intro l hl
    obtain ⟨g1, -, -⟩ := hinv.line l hl
    have hv := (hinv.lspeed l g1).values.2
    refine ⟨⌊remaining s l / (s.lobj l).growthSpeed⌋₊ + 1, ?_⟩
    intro evs hk
    refine within_runEvents hv evs _ hinv hl ⟨rfl, Or.inr ?_⟩ hk
    have := Nat.lt_floor_add_one (remaining s l / (s.lobj l).growthSpeed)
    rw [div_lt_iff₀ hv] at this
    push_cast
    exact this

/-- Witness for C18: the first seed in the state right after `initializeCenters()` on the
initial state for a viewport of 800 by 600. -/
theorem reachable_speeds_and_completion_witness :
    0 < ((initializeCenters (State.initial 800 600) (fun _ => 0)).1.pobj 0).growthSpeed :=
  ((reachable_speeds_and_completion _ (Reachable.init 800 600 (fun _ => 0))).1 0 (by
    rw [initializeCenters, (initializeLoop_spec 3 _ _).2.2.1]
    simp [State.initial])).2

/-- C19: while the script runs (start, animation frames, `addParticles()` callbacks, reset
timeouts and resizes) the expanded-centers set has at most 100 members. A call of
`addParticles()` keeps every member and adds at most one, and adds one only when the set
had fewer than 100 members (and the live particle count was at least 2000);
`resetSimulation()` empties the set. -/
theorem expandedCenters_at_most_100 :
    (∀ s : State, Runs s → s.expandedCenters.length ≤ 100) ∧
    (∀ (s s' : State) (r r' : Rand), addParticles s r = .ok (s', r') →
      (∀ c ∈ s.expandedCenters, c ∈ s'.expandedCenters) ∧
      s'.expandedCenters.length ≤ s.expandedCenters.length + 1 ∧
      (s'.expandedCenters ≠ s.expandedCenters →
        s.expandedCenters.length < 100 ∧ 2000 ≤ s.particles.length)) ∧
    (∀ (s : State) (r : Rand), (resetSimulation s r).1.expandedCenters = []) := by
  refine ⟨runs_centers, ?_, resetSimulation_expandedCenters⟩
  intro s s' r r' hok
  rcases addParticles_centers s s' r r' hok with g | ⟨g1, g2, g3⟩
  · rw [g]
    exact ⟨fun c hc => hc, by omega, fun hne => absurd rfl hne⟩
  · rw [g3]
    exact ⟨setAdd_subset _ _, setAdd_length_le _ _, fun _ => ⟨g2, g1⟩⟩

/-- Witness for C19: the state right after the script started in a viewport of 800 by
600. -/
theorem expandedCenters_at_most_100_witness :
    (initializeCenters (State.initial 800 600) (fun _ => 0)).1.expandedCenters.length ≤ 100 :=
  expandedCenters_at_most_100.1 _ (Runs.start 800 600 (fun _ => 0))

/-- C20: `maxParticles = 2000` does not bound the live particle collection. In a state
with at least 2000 live particles (allocated objects), the loop of `addParticles()` still
appends one new line per active live particle; a `grow()` call that completes a line
still appends its end particle, so that the count is then above 2000; and a state with
more than 2000 live particles is reachable. -/
theorem maxParticles_not_a_bound :
    maxParticles = 2000 ∧
    (∀ (s : State) (r : Rand), (∀ p ∈ s.particles, p < s.pnext) →
      maxParticles ≤ s.particles.length →
      (addParticlesLoop s.particles s r).1.lines
        = s.lines ++ List.range' s.lnext (activeOf s s.particles).length ∧
      ∀ (i p : ℕ), (activeOf s s.particles)[i]? = some p →
        ((addParticlesLoop s.particles s r).1.lobj (s.lnext + i)).start = p) ∧
    (∀ (s : State) (lid : ℕ), (s.lobj lid).complete = false →
      remaining s lid < (s.lobj lid).growthSpeed →
      maxParticles ≤ s.particles.length →
      (Line.grow s lid).particles.length = s.particles.length + 1 ∧
      maxParticles < (Line.grow s lid).particles.length) ∧
    (∃ s : State, Reachable s ∧ maxParticles < s.particles.length) := by
  refine ⟨rfl, ?_, ?_, ?_⟩
  · intro s r hwf _
    obtain ⟨-, -, -, -, b5, -, -, -, -, -, -, -, -, b14⟩ :=
      addParticlesLoop_spec s.particles s r hwf
    refine ⟨b5, ?_⟩
    intro i p hp
    rw [b14 i p hp]
  · intro s lid hinc hnear hmax
    have hlen : (Line.grow s lid).particles.length = s.particles.length + 1 := by
      rw [grow_near s lid hinc hnear, finish_particles]
      simp
    exact ⟨hlen, by rw [hlen]; omega⟩
  · obtain ⟨s, hs, hn⟩ := reachable_particle_count (maxParticles + 1)
    exact ⟨s, hs, by omega⟩

/-- Witness for C20: the completing `grow()` call in `crowdedState` takes the live
particle count from 2000 to 2001. -/
theorem maxParticles_not_a_bound_witness :
    (Line.grow crowdedState 0).particles.length = crowdedState.particles.length + 1 ∧
    maxParticles < (Line.grow crowdedState 0).particles.length := by
  have hnear : remaining crowdedState 0 < (crowdedState.lobj 0).growthSpeed := by
    have h : remaining crowdedState 0 = Real.sqrt ((0.1 : ℝ) * 0.1) := by
      simp only [remaining, hypot, crowdedState]
      norm_num
    rw [h, Real.sqrt_mul_self (by norm_num)]
    show (0.1 : ℝ) < 0.3
    norm_num
  exact maxParticles_not_a_bound.2.2.1 crowdedState 0 rfl hnear
    (by simp [crowdedState, maxParticles])

end

end SightCite
